import Mathlib

/-!
Verification development for the project-memory MCP server
(repository `llm-context-mcp`).

The storage/maintenance core of the repository (`src/config.ts`,
`src/types.ts`, `src/domain.ts`, `src/storage.ts`, `src/maintenance.ts`,
and the tool mutation callbacks in `src/tools.js`) is shallowly embedded
below as pure Lean functions.  Conventions used throughout:

* ISO-8601 timestamp strings are modelled by their parsed numeric value
  (`Nat`); a field that is absent, empty, or unparseable is `none`
  (`Date.parse` failures are collapsed into absence, which is how
  `sortKey` treats them anyway).
* JavaScript in-place mutation is modelled by explicit state passing:
  each mutation callback maps a store (and, where compaction is
  involved, the archive document) to its updated value.
* Generated identifiers (`crypto.randomUUID`) are modelled by threading
  the random token as an explicit argument of `newId`.
* The filesystem state visible to `withStore` is modelled by `FsState`
  (directory existence, lock-file existence, store-file content);
  fallible JSON parsing is modelled by the `FileContent` alternatives.
-/

namespace ProjectMemory

/-! ## Configuration (`src/config.ts`)

Only the fields consumed by the embedded functions are carried;
the lock retry/backoff timing constants govern real-time behaviour
that is outside the scope of this embedding. -/

structure Limits where
  maxTags : Nat
deriving DecidableEq

def LIMITS : Limits := { maxTags := 20 }

structure AutoCompactConfig where
  enabled : Bool
  maxItems : Nat
  archiveRelPath : String
  summaryTitle : String
  summaryTag : String
  summaryMaxEntries : Nat
  growthThreshold : Nat
deriving DecidableEq

structure Config where
  maxContentSnippetChars : Nat
  autoCompact : AutoCompactConfig
deriving DecidableEq

def CONFIG : Config :=
  { maxContentSnippetChars := 280
    autoCompact :=
      { enabled := true
        maxItems := 400
        archiveRelPath := ".ai/memory-archive.json"
        summaryTitle := "Archived context (auto)"
        summaryTag := "archive"
        summaryMaxEntries := 20
        growthThreshold := 50 } }

/-- `ALLOWED_TYPES` from `src/config.ts` (a `Set<MemoryType>`),
modelled as the list of its elements. -/
def ALLOWED_TYPES : List String :=
  ["note", "decision", "fact", "constraint", "todo", "architecture", "glossary"]

/-! ## Data model (`src/types.ts`) -/

structure MemoryItem where
  id : String
  type : String
  title : String
  content : String
  tags : List String
  source : Option String := none
  pinned : Bool := false
  createdAt : Option Nat := none
  updatedAt : Option Nat := none
  lastUsedAt : Option Nat := none
  proposalId : Option String := none
  archivedAt : Option Nat := none
  archivedReason : Option String := none
deriving DecidableEq

inductive PropStatus
  | pending
  | approved
  | rejected
deriving DecidableEq

/-- The literal string stored in the proposal's `status` field. -/
def statusText : PropStatus → String
  | .pending => "pending"
  | .approved => "approved"
  | .rejected => "rejected"

structure Proposal where
  id : String
  type : String
  title : String
  content : String
  tags : List String
  pinned : Bool := false
  status : PropStatus
  createdAt : Option Nat := none
  updatedAt : Option Nat := none
  reason : String := ""
deriving DecidableEq

structure StoreProject where
  id : String
  root : String
  memoryFile : String
  createdAt : Nat
  updatedAt : Nat
deriving DecidableEq

/-- The in-memory store.  The TS interface also carries the literal
field `version: 1`; being a literal type it is constant on every
type-correct value, so it lives only in the serialized document
(`StoreDoc`) here. -/
structure Store where
  project : StoreProject
  items : List MemoryItem
  proposals : List Proposal
  revision : Int
deriving DecidableEq

structure ArchiveStore where
  projectRoot : String
  createdAt : Nat
  updatedAt : Nat
  items : List MemoryItem
  revision : Int
deriving DecidableEq

/-! ## Domain helpers (`src/domain.ts`)

JavaScript string primitives (`trim`, `toLowerCase`, `slice`,
whitespace-collapsing regex replacement) are defined here on the
character list underlying a `String`, so that every definition is
kernel-executable. -/

/-- JavaScript `String.prototype.trim`: drop whitespace from both ends. -/
def jsTrim (s : String) : String :=
  ⟨((s.data.dropWhile Char.isWhitespace).reverse.dropWhile Char.isWhitespace).reverse⟩

/-- JavaScript `String.prototype.toLowerCase` (ASCII range). -/
def jsToLower (s : String) : String :=
  ⟨s.data.map Char.toLower⟩

/-- JavaScript `String.prototype.slice(0, n)`. -/
def jsSlice (s : String) (n : Nat) : String :=
  ⟨s.data.take n⟩

/-- First-occurrence deduplication, the order-preserving semantics of
JavaScript `Array.from(new Set(xs))`. -/
def dedupFirstAux (seen : List String) : List String → List String
  | [] => []
  | x :: xs =>
    if seen.contains x then dedupFirstAux seen xs
    else x :: dedupFirstAux (x :: seen) xs

def dedupFirst (xs : List String) : List String := dedupFirstAux [] xs

/-- `normalizeTags` (src/domain.ts:6-12): trim, lowercase, drop empties,
deduplicate keeping first occurrences, truncate to `LIMITS.maxTags`.
`none` models a missing/non-array `tags` argument. -/
def normalizeTags (tags : Option (List String)) : List String :=
  let arr := tags.getD []
  let norm := (arr.map (fun t => jsToLower (jsTrim t))).filter (fun t => !(t == ""))
  (dedupFirst norm).take LIMITS.maxTags

/-- `safeSnippet` (src/domain.ts:14-19).  The regex replacement
`\s+ -> " "` composed with `trim` is rendered as split-on-whitespace,
drop empty chunks, re-join with single spaces. -/
def safeSnippet (text : String) (maxChars : Nat := CONFIG.maxContentSnippetChars) : String :=
  let words := (text.data.splitOnP Char.isWhitespace).filter (fun w => !w.isEmpty)
  let trimmed : List Char := List.intercalate [' '] words
  if trimmed.length ≤ maxChars then ⟨trimmed⟩
  else ⟨trimmed.take (maxChars - 1) ++ ['…']⟩

/-- `newId` (src/domain.ts:53-57); the random UUID-derived token is an
explicit argument. -/
def newId (pfx : String) (rand : String) : String := pfx ++ "_" ++ rand

/-- `validateType` (src/domain.ts:59-62).  `none` models an absent
argument; the empty string is JS-falsy, so both fall back to "note"
before the lowercase/trim/membership check. -/
def validateType (type : Option String) : String :=
  let s := match type with
    | none => "note"
    | some t => if t == "" then "note" else t
  let t := jsTrim (jsToLower s)
  if ALLOWED_TYPES.contains t then t else "note"

example : validateType (some "bogus") = "note" := by decide
example : validateType (some " Decision ") = "decision" := by decide
example : normalizeTags (some ["  A ", "b", "a", "", "B"]) = ["a", "b"] := by decide

/-! ## Storage layer (`src/storage.ts`)

The store document on disk is a parsed JSON value.  `FileContent`
distinguishes the read anomalies that `loadStore` recovers from:
`unparseable` (read error or `JSON.parse` throw) and `nonObject`
(a parsed value failing the `!parsed || typeof parsed !== "object"`
check).  `StoreDoc` is an object-shaped value: its `version` is an
arbitrary integer and its `items`/`proposals` fields are `none` when
missing or not arrays. -/

structure StoreDoc where
  version : Int
  project : StoreProject
  items : Option (List MemoryItem)
  proposals : Option (List Proposal)
  revision : Int
deriving DecidableEq

inductive FileContent
  | unparseable
  | nonObject
  | doc (d : StoreDoc)
deriving DecidableEq

/-- `JSON.stringify` of an in-memory store, at document granularity:
the serialized document always carries `version: 1` (the literal type
of `Store.version`) and both arrays. -/
def encodeStore (s : Store) : StoreDoc :=
  { version := 1
    project := s.project
    items := some s.items
    proposals := some s.proposals
    revision := s.revision }

/-- `emptyStore` (src/storage.ts:61-75).  `hashId` stands for the
sha256-prefix project-id derivation, which is opaque to every claim. -/
def emptyStore (hashId : String → String) (projectRoot memoryFilePath : String)
    (now : Nat) : Store :=
  { project :=
      { id := hashId projectRoot
        root := projectRoot
        memoryFile := memoryFilePath
        createdAt := now
        updatedAt := now }
    items := []
    proposals := []
    revision := 0 }

/-- `loadStore` (src/storage.ts:77-90): total — every anomaly (missing
file, parse failure, non-object value, `version !== 1`, missing
`items`/`proposals` arrays) falls into the catch branch that returns a
fresh empty store; a well-formed document is returned as-is. -/
def loadStore (hashId : String → String) (file : Option FileContent)
    (projectRoot memoryFilePath : String) (now : Nat) : Store :=
  match file with
  | some (.doc d) =>
    match d.items, d.proposals with
    | some its, some props =>
      if d.version = 1 then
        { project := d.project, items := its, proposals := props, revision := d.revision }
      else emptyStore hashId projectRoot memoryFilePath now
    | _, _ => emptyStore hashId projectRoot memoryFilePath now
  | _ => emptyStore hashId projectRoot memoryFilePath now

/-- JavaScript `n || 0` on a number `n` (`0` is falsy, so this is the
identity on integers; it guards `undefined`/`NaN` in the source). -/
def jsOrZero (n : Int) : Int := if n = 0 then 0 else n

theorem jsOrZero_eq (n : Int) : jsOrZero n = n := by
  unfold jsOrZero; split <;> omega

/-- Filesystem state visible to `withStore`: the store directory, the
`.lock` sidecar, and the store file itself.  (`none` = file absent.) -/
structure FsState where
  dirExists : Bool := false
  lockPresent : Bool := false
  storeFile : Option FileContent := none
deriving DecidableEq

/-- Errors `withStore` can propagate: lock-acquisition timeout, or an
exception of type `ε` thrown by the mutation callback. -/
inductive WsErr (ε : Type)
  | lockTimeout
  | mutateError (e : ε)
deriving DecidableEq

structure WsOutcome (ε : Type) where
  result : Except (WsErr ε) Store
  fs : FsState

/-- `withStore` (src/storage.ts:99-123).  The mutation callback either
throws (`Except.error`) or returns the updated in-memory store plus the
boolean write flag.  Lock acquisition is modelled by the lock file's
presence: a pre-existing lock file means every retry fails and the
timeout error is thrown.  `releaseLock` (src/storage.ts:48-59) runs on
every path after acquisition; `closeFails`/`unlinkFails` model failures
of its two steps, both of which it swallows — a failed unlink leaves
the lock file behind but surfaces nothing. -/
def withStore (hashId : String → String) (mutate : Store → Except ε (Store × Bool))
    (_closeFails unlinkFails : Bool) (projectRoot memoryFilePath : String) (now : Nat)
    (fs : FsState) : WsOutcome ε :=
  let fs1 : FsState := { fs with dirExists := true }
  if fs1.lockPresent then
    { result := .error .lockTimeout, fs := fs1 }
  else
    let fs2 : FsState := { fs1 with lockPresent := true }
    let store := loadStore hashId fs2.storeFile projectRoot memoryFilePath now
    let step : Except (WsErr ε) Store × FsState :=
      match mutate store with
      | .error e => (.error (.mutateError e), fs2)
      | .ok (store1, updated) =>
        if updated then
          let store2 : Store :=
            { store1 with
                project := { store1.project with updatedAt := now }
                revision := jsOrZero store1.revision + 1 }
          (.ok store2, { fs2 with storeFile := some (.doc (encodeStore store2)) })
        else (.ok store1, fs2)
    { result := step.1
      fs := { step.2 with lockPresent := if unlinkFails then step.2.lockPresent else false } }

/-- The revision an observer reads back from disk. -/
def storedRevision (hashId : String → String) (fs : FsState)
    (projectRoot memoryFilePath : String) (now : Nat) : Int :=
  (loadStore hashId fs.storeFile projectRoot memoryFilePath now).revision

/-- A sequence of non-throwing `withStore` calls (each callback given as
a pure `Store → Store × Bool`), run against the same store file with no
interleaved foreign writer. -/
def runStoreSeq (hashId : String → String) (projectRoot memoryFilePath : String)
    (now : Nat) (ms : List (Store → Store × Bool)) (fs : FsState) : FsState :=
  ms.foldl
    (fun f m =>
      (withStore (ε := Unit) hashId (fun s => .ok (m s)) false false
        projectRoot memoryFilePath now f).fs)
    fs

/-! ## Maintenance layer (`src/maintenance.ts`) -/

/-- `sortKey` (src/maintenance.ts:60-64): the age key is `lastUsedAt`
if present (JS `||` chain over the timestamp strings), else
`updatedAt`, else `createdAt`; an absent/unparseable candidate yields
`0` (`Number.isFinite` guard). -/
def sortKey (it : MemoryItem) : Nat :=
  match it.lastUsedAt with
  | some t => t
  | none =>
    match it.updatedAt with
    | some t => t
    | none => it.createdAt.getD 0

/-- The comparator `(a, b) => sortKey(a) - sortKey(b)` passed to
`Array.prototype.sort`, i.e. ascending order of `sortKey`. -/
def byAge (a b : MemoryItem) : Prop := sortKey a ≤ sortKey b

instance : DecidableRel byAge := fun _ _ => Nat.decLe _ _

instance : IsTotal MemoryItem byAge := ⟨fun _ _ => Nat.le_total _ _⟩

instance : IsTrans MemoryItem byAge := ⟨fun _ _ _ => Nat.le_trans⟩

inductive CompactReason
  | auto
  | manual
deriving DecidableEq

structure CompactOptions where
  maxItems : Option Nat := none
  archivePath : Option String := none
  summaryTitle : Option String := none
  summaryTags : Option (List String) := none
  summaryMaxEntries : Option Nat := none
  reason : Option CompactReason := none
deriving DecidableEq

/-- `path.isAbsolute`, at the granularity the repository needs
(POSIX paths). -/
def pathIsAbsolute (p : String) : Bool :=
  p.data.head? == some '/'

/-- `resolveArchivePath` (src/maintenance.ts:19-26); an absent or
blank override falls back to the configured relative path, and a
relative path is joined under the project root. -/
def resolveArchivePath (cfg : Config) (projectRoot : String)
    (archivePath : Option String) : String :=
  let ap := match archivePath with
    | none => cfg.autoCompact.archiveRelPath
    | some p => if jsTrim p == "" then cfg.autoCompact.archiveRelPath else p
  if pathIsAbsolute ap then ap else projectRoot ++ "/" ++ ap

/-- `relativeArchiveLabel` (src/maintenance.ts:66-73): `path.relative`
against the project root, falling back to the absolute path when the
archive does not sit under the root (relative path starting "..") or
when the relative path is empty. -/
def relativeArchiveLabel (projectRoot archivePath : String) : String :=
  if (projectRoot ++ "/").data.isPrefixOf archivePath.data then
    let rel : String := ⟨archivePath.data.drop (projectRoot.data.length + 1)⟩
    if rel == "" then archivePath else rel
  else archivePath

/-- The archive stamp applied to each evicted record
(src/maintenance.ts:129-133). -/
def stampArchived (now : Nat) (reason : CompactReason) (it : MemoryItem) : MemoryItem :=
  { it with
      archivedAt := some now
      archivedReason := some (match reason with | .auto => "auto" | .manual => "manual") }

/-- One bullet line of the summary body (src/maintenance.ts:142-148). -/
def summaryBullet (it : MemoryItem) : String :=
  let snippet := let s := safeSnippet it.content 160; if s == "" then "(no content)" else s
  let title := if it.title == "" then "(untitled)" else it.title
  "- (" ++ (if it.type == "" then "note" else it.type) ++ ") " ++ title ++ ": " ++ snippet

/-- The value of `compactStoreInPlace`: the updated store and archive
document, the count the source returns, and — for specification — the
`itemsToArchive`/`survivors` lists the source computes internally.
`archivePath` is `none` on the early no-op returns, mirroring the
source result `{ archived: 0 }`. -/
structure CompactResult where
  store : Store
  archive : ArchiveStore
  archived : Nat
  evicted : List MemoryItem
  survivors : List MemoryItem
  archivePath : Option String
  summaryItemId : String

/-- The early-return value of `compactStoreInPlace` and
`autoCompactStore`: nothing archived, store and archive untouched. -/
def noopCompact (store : Store) (archive : ArchiveStore) : CompactResult :=
  { store := store
    archive := archive
    archived := 0
    evicted := []
    survivors := store.items
    archivePath := none
    summaryItemId := "" }

/-- `maxItems` as resolved by src/maintenance.ts:84-87. -/
def resolvedMaxItems (cfg : Config) (options : CompactOptions) : Nat :=
  Nat.max (options.maxItems.getD cfg.autoCompact.maxItems) 0

/-- `summaryTitle` as resolved by src/maintenance.ts:93-94. -/
def resolvedSummaryTitle (cfg : Config) (options : CompactOptions) : String :=
  options.summaryTitle.getD cfg.autoCompact.summaryTitle

/-- `includeSummary = Boolean(summaryTitle)` (src/maintenance.ts:108). -/
def resolvedIncludeSummary (cfg : Config) (options : CompactOptions) : Bool :=
  !(resolvedSummaryTitle cfg options == "")

/-- `targetCount = Math.max(maxItems - reserveForSummary, 0)`
(src/maintenance.ts:109-110); JavaScript `Math.max(x - y, 0)`
coincides with truncated `Nat` subtraction. -/
def resolvedTarget (cfg : Config) (options : CompactOptions) : Nat :=
  resolvedMaxItems cfg options - (if resolvedIncludeSummary cfg options then 1 else 0)

/-- The summary record synthesized by `compactStoreInPlace`
(src/maintenance.ts:139-171), as a function of the configuration,
options and the list of records being archived. -/
def mkSummaryItem (cfg : Config) (now : Nat) (sumRand projectRoot : String)
    (options : CompactOptions) (itemsToArchive : List MemoryItem) : MemoryItem :=
  let summaryTagsRaw := options.summaryTags.getD
    (if cfg.autoCompact.summaryTag == "" then [] else [cfg.autoCompact.summaryTag])
  let summaryTags := summaryTagsRaw.filter (fun t => !(jsTrim t == ""))
  let summaryMaxEntries := Nat.max (options.summaryMaxEntries.getD cfg.autoCompact.summaryMaxEntries) 1
  let archivePath := resolveArchivePath cfg projectRoot options.archivePath
  let reason := options.reason.getD .manual
  let bulletSource := itemsToArchive.drop (itemsToArchive.length - summaryMaxEntries)
  let bulletLines := String.intercalate "\n" (bulletSource.map summaryBullet)
  let remaining := itemsToArchive.length - bulletSource.length
  let moreLine := if remaining > 0 then "\n... (+" ++ toString remaining ++ " more)" else ""
  let archiveLabel := relativeArchiveLabel projectRoot archivePath
  let summaryContent :=
    "Archived " ++ toString itemsToArchive.length ++ " older item(s) into " ++
      archiveLabel ++ " on " ++ toString now ++ ".\n\n" ++ bulletLines ++ moreLine
  { id := newId "mem" sumRand
    type := "note"
    title := resolvedSummaryTitle cfg options
    content := summaryContent
    tags := summaryTags
    pinned := false
    createdAt := some now
    updatedAt := some now
    lastUsedAt := some now
    source := some (match reason with | .auto => "auto-compact" | .manual => "compact") }

/-- `compactStoreInPlace` (src/maintenance.ts:75-185).  `sumRand` is
the random token of the summary record's generated id; `archive` is
the archive document as produced by `readArchiveFile` (whose
missing/corrupt-file initialization is orthogonal to the claims).
`Array.prototype.sort` with the `sortKey` comparator is a stable
ascending sort, rendered as `List.insertionSort byAge`. -/
def compactStoreInPlace (cfg : Config) (now : Nat) (sumRand : String)
    (projectRoot : String) (store : Store) (archive : ArchiveStore)
    (options : CompactOptions) : CompactResult :=
  let maxItems := resolvedMaxItems cfg options
  if maxItems = 0 then noopCompact store archive
  else
    let archivePath := resolveArchivePath cfg projectRoot options.archivePath
    let reason := options.reason.getD .manual
    let includeSummary := resolvedIncludeSummary cfg options
    let targetCount := resolvedTarget cfg options
    if store.items.length ≤ targetCount then noopCompact store archive
    else
      let overflow := store.items.length - targetCount
      let sortedByAge := List.insertionSort byAge store.items
      let itemsToArchive := sortedByAge.take overflow
      let removalSet := itemsToArchive.map (·.id)
      let survivors := store.items.filter (fun it => !(removalSet.contains it.id))
      let archive1 : ArchiveStore :=
        { archive with
            items := archive.items ++ itemsToArchive.map (stampArchived now reason)
            updatedAt := now
            revision := jsOrZero archive.revision + 1 }
      let summaryItem := mkSummaryItem cfg now sumRand projectRoot options itemsToArchive
      let items2 := if includeSummary then survivors ++ [summaryItem] else survivors
      let summaryItemId := if includeSummary then summaryItem.id else ""
      { store := { store with items := items2 }
        archive := archive1
        archived := itemsToArchive.length
        evicted := itemsToArchive
        survivors := survivors
        archivePath := some archivePath
        summaryItemId := summaryItemId }

/-- The option record `autoCompactStore` passes on
(src/maintenance.ts:196-203). -/
def autoOptions (cfg : Config) : CompactOptions :=
  { maxItems := some cfg.autoCompact.maxItems
    archivePath := some cfg.autoCompact.archiveRelPath
    summaryTitle := some cfg.autoCompact.summaryTitle
    summaryTags := some
      (if cfg.autoCompact.summaryTag == "" then [] else [cfg.autoCompact.summaryTag])
    summaryMaxEntries := some cfg.autoCompact.summaryMaxEntries
    reason := some .auto }

/-- `autoCompactStore` (src/maintenance.ts:187-204): engage only when
the policy is enabled and the active count strictly exceeds
`maxItems`; then delegate with the standing policy's options. -/
def autoCompactStore (cfg : Config) (now : Nat) (sumRand : String) (projectRoot : String)
    (store : Store) (archive : ArchiveStore) : CompactResult :=
  if !cfg.autoCompact.enabled then noopCompact store archive
  else if cfg.autoCompact.maxItems = 0 ∨ store.items.length ≤ cfg.autoCompact.maxItems then
    noopCompact store archive
  else
    compactStoreInPlace cfg now sumRand projectRoot store archive (autoOptions cfg)

/-! ## Tool mutation callbacks (`src/tools.js`)

Each tool handler passes a closure to `withStore`; the closures are
embedded here as pure functions of the loaded store (and the archive
document, for the handlers that reach the compaction engine). -/

/-- Replace the first element satisfying `p` — the effect of the
source's `find`-then-mutate-in-place idiom. -/
def updateFirst (p : α → Bool) (f : α → α) : List α → List α
  | [] => []
  | x :: xs => if p x then f x :: xs else x :: updateFirst p f xs

/-- The read-only callbacks (`memory_status`, `memory_search`,
`memory_get_bundle`, `memory_list_proposals`): `async () => false`. -/
def memoryStatusMutate (st : Store) : Store × Bool := (st, false)

structure SaveInput where
  type : Option String := none
  title : String
  content : String
  tags : Option (List String) := none
  pinned : Option Bool := none
  source : Option String := none
deriving DecidableEq

structure ToolSaveResult where
  store : Store
  archive : ArchiveStore
  updated : Bool
  itemId : String
  archived : Nat

/-- The record as constructed by the `memory_save` handler
(src/tools.js:277-288). -/
def mkSavedItem (input : SaveInput) (rand : String) (now : Nat) : MemoryItem :=
  { id := newId "mem" rand
    type := validateType input.type
    title := jsTrim input.title
    content := jsTrim input.content
    tags := normalizeTags input.tags
    pinned := input.pinned.getD false
    createdAt := some now
    updatedAt := some now
    lastUsedAt := some now
    source := some (match input.source with
      | some s => if s == "" then "direct" else jsTrim s
      | none => "direct") }

/-- The `memory_save` handler's callback (src/tools.js:271-298):
construct the record through `validateType`/`normalizeTags`, push it,
run `autoCompactStore`, return `true`. -/
def memorySaveMutate (cfg : Config) (input : SaveInput) (rand sumRand : String)
    (now : Nat) (projectRoot : String) (st : Store) (archive : ArchiveStore) :
    ToolSaveResult :=
  let item := mkSavedItem input rand now
  let st1 : Store := { st with items := st.items ++ [item] }
  let c := autoCompactStore cfg now sumRand projectRoot st1 archive
  { store := c.store, archive := c.archive, updated := true, itemId := item.id
    archived := c.archived }

structure ProposeItemInput where
  type : Option String := none
  title : String
  content : String
  tags : Option (List String) := none
  pinned : Option Bool := none
deriving DecidableEq

/-- One proposal as constructed by the `memory_propose` handler
(src/tools.js:217-250). -/
def mkProposal (reason : Option String) (now : Nat) (raw : ProposeItemInput)
    (rand : String) : Proposal :=
  { id := newId "prop" rand
    type := validateType raw.type
    title := jsTrim raw.title
    content := jsTrim raw.content
    tags := normalizeTags raw.tags
    pinned := raw.pinned.getD false
    status := .pending
    createdAt := some now
    updatedAt := some now
    reason := match reason with
      | some r => if r == "" then "" else jsTrim r
      | none => "" }

/-- The `memory_propose` handler's callback; the per-item random id
tokens are threaded as `rands`. -/
def memoryProposeMutate (items : List ProposeItemInput) (reason : Option String)
    (rands : List String) (now : Nat) (st : Store) : Store × Bool × List String :=
  let newProps := (items.zip rands).map (fun pr => mkProposal reason now pr.1 pr.2)
  ({ st with proposals := st.proposals ++ newProps }, true, newProps.map (·.id))

structure ProposalEdits where
  type : Option String := none
  title : Option String := none
  content : Option String := none
  tags : Option (List String) := none
  pinned : Option Bool := none
deriving DecidableEq

/-- The optional pre-decision edits of `memory_approve_proposal`
(src/tools.js:380-386).  `if (edits.type)` is JS-truthiness, so an
empty string leaves the type untouched; a present `tags` array (even
empty) is truthy and re-normalized. -/
def applyEdits (edits : Option ProposalEdits) (p : Proposal) : Proposal :=
  match edits with
  | none => p
  | some e =>
    let p1 := match e.type with
      | some t => if t == "" then p else { p with type := validateType (some t) }
      | none => p
    let p2 := match e.title with
      | some t => { p1 with title := jsTrim t }
      | none => p1
    let p3 := match e.content with
      | some c => { p2 with content := jsTrim c }
      | none => p2
    let p4 := match e.tags with
      | some ts => { p3 with tags := normalizeTags (some ts) }
      | none => p3
    match e.pinned with
      | some b => { p4 with pinned := b }
      | none => p4

inductive ApproveAction
  | approve
  | reject
deriving DecidableEq

/-- The decision applied to the (possibly edited) proposal
(src/tools.js:388-389). -/
def decideProposal (action : ApproveAction) (now : Nat) (p : Proposal) : Proposal :=
  { p with
      status := match action with | .approve => .approved | .reject => .rejected
      updatedAt := some now }

/-- The independent record created on approval (src/tools.js:392-404),
carrying a fresh id and a `proposalId` back-reference. -/
def mkApprovedItem (decided : Proposal) (rand : String) (now : Nat) : MemoryItem :=
  { id := newId "mem" rand
    type := decided.type
    title := decided.title
    content := decided.content
    tags := decided.tags
    pinned := decided.pinned
    createdAt := some now
    updatedAt := some now
    lastUsedAt := some now
    source := some "proposal"
    proposalId := some decided.id }

structure ToolMutResult where
  store : Store
  archive : ArchiveStore
  updated : Bool
  text : String

/-- The `memory_approve_proposal` handler's callback
(src/tools.js:363-418). -/
def approveMutate (cfg : Config) (proposalId : String) (action : ApproveAction)
    (edits : Option ProposalEdits) (rand sumRand : String) (now : Nat)
    (projectRoot : String) (st : Store) (archive : ArchiveStore) : ToolMutResult :=
  match st.proposals.find? (fun x => x.id == proposalId) with
  | none =>
    { store := st, archive := archive, updated := false
      text := "Proposal not found: " ++ proposalId }
  | some p =>
    if p.status = .pending then
      let decided := decideProposal action now (applyEdits edits p)
      let proposals1 := updateFirst (fun x => x.id == proposalId) (fun _ => decided) st.proposals
      match action with
      | .approve =>
        let item := mkApprovedItem decided rand now
        let st1 : Store := { st with items := st.items ++ [item], proposals := proposals1 }
        let c := autoCompactStore cfg now sumRand projectRoot st1 archive
        { store := c.store, archive := c.archive, updated := true
          text := "Approved " ++ proposalId ++ " -> saved as item " ++ item.id }
      | .reject =>
        { store := { st with proposals := proposals1 }, archive := archive, updated := true
          text := "Rejected " ++ proposalId }
    else
      { store := st, archive := archive, updated := false
        text := "Proposal " ++ proposalId ++ " is already " ++ statusText p.status }

/-- The `memory_pin` handler's callback (src/tools.js:431-448). -/
def memoryPinMutate (itemId : String) (pinned : Bool) (now : Nat) (st : Store) :
    Store × Bool × String :=
  match st.items.find? (fun x => x.id == itemId) with
  | none => (st, false, "Item not found: " ++ itemId)
  | some _ =>
    let items1 := updateFirst (fun x => x.id == itemId)
      (fun it => { it with pinned := pinned, updatedAt := some now }) st.items
    ({ st with items := items1 }, true, (if pinned then "Pinned " else "Unpinned ") ++ itemId)

/-- The `memory_compact` handler's callback (src/tools.js:480-510):
explicit compaction with caller-supplied overrides; the write flag is
`result.archived > 0`, so a no-op compaction does not persist. -/
def memoryCompactMutate (cfg : Config) (maxItems : Option Nat) (archivePath : Option String)
    (summaryTitle : Option String) (summaryTags : Option (List String))
    (summaryMaxEntries : Option Nat) (sumRand : String) (now : Nat) (projectRoot : String)
    (st : Store) (archive : ArchiveStore) : CompactResult × Bool :=
  let result := compactStoreInPlace cfg now sumRand projectRoot st archive
    { maxItems := maxItems
      archivePath := archivePath
      summaryTitle := summaryTitle
      summaryTags := summaryTags
      summaryMaxEntries := summaryMaxEntries
      reason := some .manual }
  (result, result.archived > 0)

/-! ## Helper lemmas about the eviction core -/

/-- Shorthand for the sorted-by-age copy of an item list. -/
def agedSort (l : List MemoryItem) : List MemoryItem := List.insertionSort byAge l

theorem agedSort_perm (l : List MemoryItem) : (agedSort l).Perm l :=
  List.perm_insertionSort byAge l

theorem agedSort_sorted (l : List MemoryItem) : List.Sorted byAge (agedSort l) :=
  List.sorted_insertionSort byAge l

theorem agedSort_length (l : List MemoryItem) : (agedSort l).length = l.length :=
  (agedSort_perm l).length_eq

/-- Distinct age keys carry over to the sorted copy. -/
theorem agedSort_pairwise_ne (l : List MemoryItem)
    (hdist : l.Pairwise (fun a b => sortKey a ≠ sortKey b)) :
    (agedSort l).Pairwise (fun a b => sortKey a ≠ sortKey b) :=
  ((agedSort_perm l).pairwise_iff (fun h => h.symm)).mpr hdist

/-- With distinct keys the sorted copy is strictly increasing. -/
theorem agedSort_pairwise_lt (l : List MemoryItem)
    (hdist : l.Pairwise (fun a b => sortKey a ≠ sortKey b)) :
    (agedSort l).Pairwise (fun a b => sortKey a < sortKey b) := by
  have hs := agedSort_sorted l
  have hne := agedSort_pairwise_ne l hdist
  exact (hs.and hne).imp (fun h => lt_of_le_of_ne h.1 h.2)

/-- Every evicted record is strictly older than every record that is
not evicted (under distinct age keys). -/
theorem agedSort_take_lt_drop (l : List MemoryItem) (k : Nat)
    (hdist : l.Pairwise (fun a b => sortKey a ≠ sortKey b)) :
    ∀ x ∈ (agedSort l).take k, ∀ y ∈ (agedSort l).drop k, sortKey x < sortKey y := by
  have hlt := agedSort_pairwise_lt l hdist
  rw [← List.take_append_drop k (agedSort l)] at hlt
  exact (List.pairwise_append.mp hlt).2.2

/-- The survivors filter removes exactly the evicted records: it is a
permutation of the sorted list with its first `k` entries dropped,
provided record ids are unique. -/
theorem survivors_perm_drop (l : List MemoryItem) (k : Nat)
    (hnodup : (l.map (fun it => it.id)).Nodup) :
    (l.filter
        (fun it => !((((agedSort l).take k).map (fun x => x.id)).contains it.id))).Perm
      ((agedSort l).drop k) := by
  set p : MemoryItem → Bool :=
    fun it => !((((agedSort l).take k).map (fun x => x.id)).contains it.id) with hp
  have hperm : l.Perm (agedSort l) := (agedSort_perm l).symm
  have h1 : (l.filter p).Perm ((agedSort l).filter p) := hperm.filter p
  have hsn : ((agedSort l).map (fun it => it.id)).Nodup :=
    (((agedSort_perm l).map (fun it => it.id)).nodup_iff).mpr hnodup
  have hsplit : (agedSort l).filter p =
      ((agedSort l).take k).filter p ++ ((agedSort l).drop k).filter p := by
    rw [← List.filter_append, List.take_append_drop]
  have htake : ((agedSort l).take k).filter p = [] := by
    apply List.filter_eq_nil_iff.mpr
    intro x hx
    have hc : (((agedSort l).take k).map (fun x => x.id)).contains x.id = true :=
      List.elem_eq_true_of_mem (List.mem_map_of_mem (fun it => it.id) hx)
    simp only [hp, hc, Bool.not_true]
    exact Bool.false_ne_true
  have hdrop : ((agedSort l).drop k).filter p = (agedSort l).drop k := by
    apply List.filter_eq_self.mpr
    intro y hy
    simp only [hp, Bool.not_eq_true']
    cases hcb : (((agedSort l).take k).map (fun x => x.id)).contains y.id with
    | false => rfl
    | true =>
      exfalso
      have hymem : y.id ∈ ((agedSort l).take k).map (fun x => x.id) :=
        List.mem_of_elem_eq_true hcb
      have hymem2 : y.id ∈ ((agedSort l).drop k).map (fun x => x.id) :=
        List.mem_map_of_mem (fun it => it.id) hy
      have hnd : ((agedSort l).map (fun it => it.id)).Nodup := hsn
      rw [← List.take_append_drop k (agedSort l), List.map_append] at hnd
      exact (List.disjoint_of_nodup_append hnd) hymem hymem2
  calc (l.filter p).Perm ((agedSort l).filter p) := h1
    _ = _ := by rw [hsplit, htake, hdrop, List.nil_append]

/-! ## Unfolding lemmas for the compaction engine -/

theorem compact_noop_of_le (cfg : Config) (now : Nat) (sumRand projectRoot : String)
    (store : Store) (archive : ArchiveStore) (options : CompactOptions)
    (h : resolvedMaxItems cfg options = 0 ∨
      store.items.length ≤ resolvedTarget cfg options) :
    compactStoreInPlace cfg now sumRand projectRoot store archive options =
      noopCompact store archive := by
  rcases h with h | h
  · simp [compactStoreInPlace, h]
  · by_cases h0 : resolvedMaxItems cfg options = 0
    · simp [compactStoreInPlace, h0]
    · simp [compactStoreInPlace, h0, h]

theorem compact_evicted_of_overflow (cfg : Config) (now : Nat) (sumRand projectRoot : String)
    (store : Store) (archive : ArchiveStore) (options : CompactOptions)
    (h0 : resolvedMaxItems cfg options ≠ 0)
    (h1 : resolvedTarget cfg options < store.items.length) :
    (compactStoreInPlace cfg now sumRand projectRoot store archive options).evicted =
      (agedSort store.items).take (store.items.length - resolvedTarget cfg options) := by
  simp [compactStoreInPlace, h0, Nat.not_le.mpr h1, agedSort]

theorem compact_survivors_of_overflow (cfg : Config) (now : Nat) (sumRand projectRoot : String)
    (store : Store) (archive : ArchiveStore) (options : CompactOptions)
    (h0 : resolvedMaxItems cfg options ≠ 0)
    (h1 : resolvedTarget cfg options < store.items.length) :
    (compactStoreInPlace cfg now sumRand projectRoot store archive options).survivors =
      store.items.filter (fun it =>
        !((((agedSort store.items).take (store.items.length - resolvedTarget cfg options)).map
            (fun x => x.id)).contains it.id)) := by
  simp [compactStoreInPlace, h0, Nat.not_le.mpr h1, agedSort]

theorem compact_archived_of_overflow (cfg : Config) (now : Nat) (sumRand projectRoot : String)
    (store : Store) (archive : ArchiveStore) (options : CompactOptions)
    (h0 : resolvedMaxItems cfg options ≠ 0)
    (h1 : resolvedTarget cfg options < store.items.length) :
    (compactStoreInPlace cfg now sumRand projectRoot store archive options).archived =
      store.items.length - resolvedTarget cfg options := by
  have hk : store.items.length - resolvedTarget cfg options ≤ (agedSort store.items).length := by
    rw [agedSort_length]; omega
  simp [compactStoreInPlace, h0, Nat.not_le.mpr h1, agedSort, List.length_take,
    Nat.min_eq_left hk]

theorem compact_items_no_summary (cfg : Config) (now : Nat) (sumRand projectRoot : String)
    (store : Store) (archive : ArchiveStore) (options : CompactOptions)
    (h0 : resolvedMaxItems cfg options ≠ 0)
    (h1 : resolvedTarget cfg options < store.items.length)
    (hs : resolvedIncludeSummary cfg options = false) :
    (compactStoreInPlace cfg now sumRand projectRoot store archive options).store.items =
      (compactStoreInPlace cfg now sumRand projectRoot store archive options).survivors := by
  simp [compactStoreInPlace, h0, Nat.not_le.mpr h1, hs]

theorem compact_items_with_summary (cfg : Config) (now : Nat) (sumRand projectRoot : String)
    (store : Store) (archive : ArchiveStore) (options : CompactOptions)
    (h0 : resolvedMaxItems cfg options ≠ 0)
    (h1 : resolvedTarget cfg options < store.items.length)
    (hs : resolvedIncludeSummary cfg options = true) :
    (compactStoreInPlace cfg now sumRand projectRoot store archive options).store.items =
      (compactStoreInPlace cfg now sumRand projectRoot store archive options).survivors ++
        [mkSummaryItem cfg now sumRand projectRoot options
          ((agedSort store.items).take (store.items.length - resolvedTarget cfg options))] := by
  simp [compactStoreInPlace, h0, Nat.not_le.mpr h1, hs, agedSort]

theorem mkSummaryItem_fields (cfg : Config) (now : Nat) (sumRand projectRoot : String)
    (options : CompactOptions) (itemsToArchive : List MemoryItem) :
    (mkSummaryItem cfg now sumRand projectRoot options itemsToArchive).id =
        newId "mem" sumRand ∧
    (mkSummaryItem cfg now sumRand projectRoot options itemsToArchive).type = "note" ∧
    (mkSummaryItem cfg now sumRand projectRoot options itemsToArchive).title =
        resolvedSummaryTitle cfg options ∧
    (mkSummaryItem cfg now sumRand projectRoot options itemsToArchive).tags =
        (options.summaryTags.getD
          (if cfg.autoCompact.summaryTag == "" then []
            else [cfg.autoCompact.summaryTag])).filter (fun t => !(jsTrim t == "")) ∧
    (mkSummaryItem cfg now sumRand projectRoot options itemsToArchive).lastUsedAt = some now ∧
    (mkSummaryItem cfg now sumRand projectRoot options itemsToArchive).pinned = false :=
  ⟨rfl, rfl, rfl, rfl, rfl, rfl⟩

theorem compact_proposals_unchanged (cfg : Config) (now : Nat) (sumRand projectRoot : String)
    (store : Store) (archive : ArchiveStore) (options : CompactOptions) :
    (compactStoreInPlace cfg now sumRand projectRoot store archive options).store.proposals =
      store.proposals := by
  by_cases h0 : resolvedMaxItems cfg options = 0
  · simp [compactStoreInPlace, h0, noopCompact]
  · by_cases h1 : store.items.length ≤ resolvedTarget cfg options
    · simp [compactStoreInPlace, h0, h1, noopCompact]
    · simp [compactStoreInPlace, h0, h1, noopCompact]

theorem compact_project_unchanged (cfg : Config) (now : Nat) (sumRand projectRoot : String)
    (store : Store) (archive : ArchiveStore) (options : CompactOptions) :
    (compactStoreInPlace cfg now sumRand projectRoot store archive options).store.project =
      store.project := by
  by_cases h0 : resolvedMaxItems cfg options = 0
  · simp [compactStoreInPlace, h0, noopCompact]
  · by_cases h1 : store.items.length ≤ resolvedTarget cfg options
    · simp [compactStoreInPlace, h0, h1, noopCompact]
    · simp [compactStoreInPlace, h0, h1, noopCompact]

theorem compact_archive_items_of_overflow (cfg : Config) (now : Nat)
    (sumRand projectRoot : String) (store : Store) (archive : ArchiveStore)
    (options : CompactOptions)
    (h0 : resolvedMaxItems cfg options ≠ 0)
    (h1 : resolvedTarget cfg options < store.items.length) :
    (compactStoreInPlace cfg now sumRand projectRoot store archive options).archive.items =
      archive.items ++
        ((agedSort store.items).take (store.items.length - resolvedTarget cfg options)).map
          (stampArchived now (options.reason.getD .manual)) := by
  simp [compactStoreInPlace, h0, Nat.not_le.mpr h1, agedSort]

/-! ## Unfolding lemmas for the transactional accessor -/

theorem compact_survivors_length (cfg : Config) (now : Nat) (sumRand projectRoot : String)
    (store : Store) (archive : ArchiveStore) (options : CompactOptions)
    (h0 : resolvedMaxItems cfg options ≠ 0)
    (h1 : resolvedTarget cfg options < store.items.length)
    (hnodup : (store.items.map (fun it => it.id)).Nodup) :
    (compactStoreInPlace cfg now sumRand projectRoot store archive options).survivors.length =
      resolvedTarget cfg options := by
  rw [compact_survivors_of_overflow cfg now sumRand projectRoot store archive options h0 h1]
  have hperm := survivors_perm_drop store.items
    (store.items.length - resolvedTarget cfg options) hnodup
  rw [hperm.length_eq, List.length_drop, agedSort_length]
  omega

/-- Round trip through the codec: a serialized store always loads back
unchanged (`version` is pinned to 1 and both arrays are present). -/
theorem loadStore_encode (hashId : String → String) (s : Store)
    (root path : String) (now : Nat) :
    loadStore hashId (some (.doc (encodeStore s))) root path now = s := by
  simp [loadStore, encodeStore]

theorem withStore_locked (hashId : String → String) (mutate : Store → Except ε (Store × Bool))
    (cf uf : Bool) (root path : String) (now : Nat) (fs : FsState)
    (h : fs.lockPresent = true) :
    withStore hashId mutate cf uf root path now fs =
      { result := .error .lockTimeout, fs := { fs with dirExists := true } } := by
  simp [withStore, h]

theorem withStore_read (hashId : String → String) (mutate : Store → Except ε (Store × Bool))
    (cf uf : Bool) (root path : String) (now : Nat) (fs : FsState) (s1 : Store)
    (h : fs.lockPresent = false)
    (hm : mutate (loadStore hashId fs.storeFile root path now) = .ok (s1, false)) :
    withStore hashId mutate cf uf root path now fs =
      { result := .ok s1, fs := { fs with dirExists := true, lockPresent := uf } } := by
  cases uf <;> simp [withStore, h, hm]

theorem withStore_write (hashId : String → String) (mutate : Store → Except ε (Store × Bool))
    (cf uf : Bool) (root path : String) (now : Nat) (fs : FsState) (s1 : Store)
    (h : fs.lockPresent = false)
    (hm : mutate (loadStore hashId fs.storeFile root path now) = .ok (s1, true)) :
    withStore hashId mutate cf uf root path now fs =
      { result := .ok { s1 with
          project := { s1.project with updatedAt := now }
          revision := jsOrZero s1.revision + 1 }
        fs := { fs with
          dirExists := true
          lockPresent := uf
          storeFile := some (.doc (encodeStore { s1 with
            project := { s1.project with updatedAt := now }
            revision := jsOrZero s1.revision + 1 })) } } := by
  cases uf <;> simp [withStore, h, hm]

theorem withStore_throw (hashId : String → String) (mutate : Store → Except ε (Store × Bool))
    (cf uf : Bool) (root path : String) (now : Nat) (fs : FsState) (e : ε)
    (h : fs.lockPresent = false)
    (hm : mutate (loadStore hashId fs.storeFile root path now) = .error e) :
    withStore hashId mutate cf uf root path now fs =
      { result := .error (.mutateError e), fs := { fs with dirExists := true, lockPresent := uf } } := by
  cases uf <;> simp [withStore, h, hm]

/-- A single successful mutating call bumps the on-disk revision by
exactly one and leaves the lock released. -/
theorem runStoreSeq_step (hashId : String → String) (root path : String) (now : Nat)
    (m : Store → Store × Bool) (fs : FsState)
    (hlock : fs.lockPresent = false)
    (hflag : ∀ s, (m s).2 = true)
    (hrev : ∀ s, (m s).1.revision = s.revision) :
    storedRevision hashId
        ((withStore (ε := Unit) hashId (fun s => .ok (m s)) false false
          root path now fs).fs) root path now =
        storedRevision hashId fs root path now + 1 ∧
      ((withStore (ε := Unit) hashId (fun s => .ok (m s)) false false
        root path now fs).fs).lockPresent = false := by
  set loaded := loadStore hashId fs.storeFile root path now with hload
  have hpair : m loaded = ((m loaded).1, true) := by
    rw [← hflag loaded]
  have hm : (fun s => (.ok (m s) : Except Unit (Store × Bool))) loaded =
      .ok ((m loaded).1, true) := by
    show Except.ok (m loaded) = _
    conv_lhs => rw [hpair]
  have hw := withStore_write hashId (fun s => .ok (m s)) false false root path now fs
    ((m loaded).1) hlock hm
  rw [hw]
  refine ⟨?_, rfl⟩
  show (loadStore hashId (some (.doc (encodeStore _))) root path now).revision = _
  rw [loadStore_encode]
  show jsOrZero (m loaded).1.revision + 1 = _
  rw [jsOrZero_eq, hrev loaded]
  rfl

/-- Revision accounting over a whole sequence of successful mutating
calls. -/
theorem runStoreSeq_revision (hashId : String → String) (root path : String) (now : Nat)
    (ms : List (Store → Store × Bool)) (fs : FsState)
    (hlock : fs.lockPresent = false)
    (hflag : ∀ m ∈ ms, ∀ s, (m s).2 = true)
    (hrev : ∀ m ∈ ms, ∀ s, (m s).1.revision = s.revision) :
    storedRevision hashId (runStoreSeq hashId root path now ms fs) root path now =
        storedRevision hashId fs root path now + ms.length ∧
      (runStoreSeq hashId root path now ms fs).lockPresent = false := by
  induction ms generalizing fs with
  | nil => simpa [runStoreSeq] using hlock
  | cons m ms ih =>
    have hstep := runStoreSeq_step hashId root path now m fs hlock
      (hflag m (List.mem_cons_self m ms)) (hrev m (List.mem_cons_self m ms))
    have hrun : runStoreSeq hashId root path now (m :: ms) fs =
        runStoreSeq hashId root path now ms
          ((withStore (ε := Unit) hashId (fun s => .ok (m s)) false false
            root path now fs).fs) := by
      simp [runStoreSeq]
    rw [hrun]
    have hih := ih _ hstep.2
      (fun m' hm' s => hflag m' (List.mem_cons_of_mem m hm') s)
      (fun m' hm' s => hrev m' (List.mem_cons_of_mem m hm') s)
    refine ⟨?_, hih.2⟩
    rw [hih.1, hstep.1]
    simp only [List.length_cons]
    push_cast
    ring

/-- A pure read-only callback leaves the filesystem exactly as it was,
up to directory creation. -/
theorem withStore_pure_read (hashId : String → String) (root path : String) (now : Nat)
    (m : Store → Store × Bool) (f : FsState)
    (hlock : f.lockPresent = false)
    (hflag : (m (loadStore hashId f.storeFile root path now)).2 = false) :
    (withStore (ε := Unit) hashId (fun s => .ok (m s)) false false root path now f).fs =
      { f with dirExists := true } := by
  set loaded := loadStore hashId f.storeFile root path now with hload
  have hpair : m loaded = ((m loaded).1, false) := by
    rw [← hflag]
  have hm : (fun s => (.ok (m s) : Except Unit (Store × Bool))) loaded =
      .ok ((m loaded).1, false) := by
    show Except.ok (m loaded) = _
    conv_lhs => rw [hpair]
  rw [withStore_read hashId (fun s => .ok (m s)) false false root path now f
    ((m loaded).1) hlock hm]
  simp [hlock]

/-! ## Concrete fixtures used by witnesses and counterexamples -/

def projW : StoreProject :=
  { id := "p", root := "/r", memoryFile := "/r/.ai/memory.json", createdAt := 0, updatedAt := 0 }

def arch0 : ArchiveStore :=
  { projectRoot := "/r", createdAt := 0, updatedAt := 0, items := [], revision := 0 }

/-- A record whose id is `i` letters long and whose age key is `i`:
ids are pairwise distinct and age keys strictly increase. -/
def itemW (i : Nat) : MemoryItem :=
  { id := ⟨List.replicate i 'a'⟩, type := "note", title := "t", content := "c",
    tags := [], createdAt := some i, updatedAt := some i, lastUsedAt := some i }

def storeOfLen (n : Nat) : Store :=
  { project := projW, items := (List.range n).map itemW, proposals := [], revision := 0 }

/-- A store document with an unsupported version, used as a witness
input. -/
def badDocW : StoreDoc :=
  { version := 2, project := projW, items := some [], proposals := some [], revision := 7 }

theorem itemW_id_injective : Function.Injective (fun i => (itemW i).id) := by
  intro i j h
  have hl := congrArg (fun s : String => s.data.length) h
  simpa [itemW] using hl

theorem storeOfLen_ids_nodup (n : Nat) :
    ((storeOfLen n).items.map (fun it => it.id)).Nodup := by
  have : (storeOfLen n).items.map (fun it => it.id) =
      (List.range n).map (fun i => (itemW i).id) := by
    simp [storeOfLen]
  rw [this]
  exact (List.nodup_range n).map itemW_id_injective

theorem storeOfLen_length (n : Nat) : (storeOfLen n).items.length = n := by
  simp [storeOfLen]

theorem storeOfLen_keys_distinct (n : Nat) :
    (storeOfLen n).items.Pairwise (fun a b => sortKey a ≠ sortKey b) := by
  have h : (storeOfLen n).items = (List.range n).map itemW := rfl
  rw [h, List.pairwise_map]
  have : List.Pairwise (fun a b : Nat => a ≠ b) (List.range n) := List.nodup_range n
  exact this.imp (fun hab => by simpa [itemW, sortKey] using hab)

/-! ## The claims -/

/-- C1: a sequence of `N` `withStore` calls whose callbacks all return
`true` (and none of which touches the `revision` field itself), each
completing successfully, raises the on-disk revision by exactly `N`;
and a `withStore` call whose callback returns `false` leaves the store
file — hence the on-disk revision — unchanged. -/
theorem claim_C1_revision_counting (hashId : String → String) (root path : String)
    (now : Nat) (ms : List (Store → Store × Bool)) (fs : FsState)
    (hlock : fs.lockPresent = false)
    (hflag : ∀ m ∈ ms, ∀ s, (m s).2 = true)
    (hrev : ∀ m ∈ ms, ∀ s, (m s).1.revision = s.revision) :
    storedRevision hashId (runStoreSeq hashId root path now ms fs) root path now =
        storedRevision hashId fs root path now + ms.length ∧
      ∀ (m : Store → Store × Bool) (f : FsState),
        f.lockPresent = false →
        (m (loadStore hashId f.storeFile root path now)).2 = false →
        (withStore (ε := Unit) hashId (fun s => .ok (m s)) false false
            root path now f).fs.storeFile = f.storeFile ∧
          storedRevision hashId
              ((withStore (ε := Unit) hashId (fun s => .ok (m s)) false false
                root path now f).fs) root path now =
            storedRevision hashId f root path now := by
  refine ⟨(runStoreSeq_revision hashId root path now ms fs hlock hflag hrev).1,
    fun m f hl hf => ?_⟩
  rw [withStore_pure_read hashId root path now m f hl hf]
  exact ⟨rfl, rfl⟩

theorem claim_C1_witness :
    ({} : FsState).lockPresent = false ∧
    storedRevision (fun s => s)
        (runStoreSeq (fun s => s) "/r" "/r/.ai/memory.json" 7
          [fun s => (s, true), fun s => (s, true)] {}) "/r" "/r/.ai/memory.json" 7 =
      storedRevision (fun s => s) ({} : FsState) "/r" "/r/.ai/memory.json" 7 +
        ([fun s => (s, true), fun s => (s, true)] : List (Store → Store × Bool)).length :=
  ⟨rfl,
    (claim_C1_revision_counting (fun s => s) "/r" "/r/.ai/memory.json" 7
      [fun s => (s, true), fun s => (s, true)] {} rfl
      (by
        intro m hm s
        rcases List.mem_cons.mp hm with h | h
        · subst h; rfl
        · rcases List.mem_cons.mp h with h2 | h2
          · subst h2; rfl
          · exact absurd h2 (List.not_mem_nil m))
      (by
        intro m hm s
        rcases List.mem_cons.mp hm with h | h
        · subst h; rfl
        · rcases List.mem_cons.mp h with h2 | h2
          · subst h2; rfl
          · exact absurd h2 (List.not_mem_nil m))).1⟩

/-- C5: `loadStore` is total and recovers from every read anomaly —
missing file, unparseable content, non-object value, a version other
than 1, or a missing `items`/`proposals` array — by returning a fresh
empty store (empty arrays, revision 0) bound to the given project
root; and every document produced by `atomicWriteJson` loads back with
all record fields and the revision unchanged. -/
theorem claim_C5_loadStore_recovery (hashId : String → String)
    (root path : String) (now : Nat) :
    (loadStore hashId none root path now = emptyStore hashId root path now) ∧
    (loadStore hashId (some .unparseable) root path now = emptyStore hashId root path now) ∧
    (loadStore hashId (some .nonObject) root path now = emptyStore hashId root path now) ∧
    (∀ d : StoreDoc, d.version ≠ 1 →
      loadStore hashId (some (.doc d)) root path now = emptyStore hashId root path now) ∧
    (∀ d : StoreDoc, d.items = none →
      loadStore hashId (some (.doc d)) root path now = emptyStore hashId root path now) ∧
    (∀ d : StoreDoc, d.proposals = none →
      loadStore hashId (some (.doc d)) root path now = emptyStore hashId root path now) ∧
    ((emptyStore hashId root path now).items = [] ∧
      (emptyStore hashId root path now).proposals = [] ∧
      (emptyStore hashId root path now).revision = 0 ∧
      (emptyStore hashId root path now).project.root = root ∧
      (emptyStore hashId root path now).project.memoryFile = path) ∧
    (∀ s : Store, loadStore hashId (some (.doc (encodeStore s))) root path now = s) := by
  refine ⟨rfl, rfl, rfl, ?_, ?_, ?_, ⟨rfl, rfl, rfl, rfl, rfl⟩,
    fun s => loadStore_encode hashId s root path now⟩
  · intro d hv
    rcases d with ⟨v, pr, its, props, rev⟩
    cases its <;> cases props <;> simp_all [loadStore]
  · intro d hi
    rcases d with ⟨v, pr, its, props, rev⟩
    cases props <;> simp_all [loadStore]
  · intro d hp
    rcases d with ⟨v, pr, its, props, rev⟩
    cases its <;> simp_all [loadStore]

theorem claim_C5_witness :
    ((2 : Int) ≠ 1) ∧
    loadStore (fun s => s) (some (.doc badDocW)) "/r" "/r/.ai/memory.json" 3 =
      emptyStore (fun s => s) "/r" "/r/.ai/memory.json" 3 ∧
    loadStore (fun s => s) (some (.doc (encodeStore (storeOfLen 2))))
        "/r" "/r/.ai/memory.json" 3 =
      storeOfLen 2 :=
  ⟨by decide,
    (claim_C5_loadStore_recovery (fun s => s) "/r" "/r/.ai/memory.json" 3).2.2.2.1 _
      (by decide),
    (claim_C5_loadStore_recovery (fun s => s) "/r" "/r/.ai/memory.json" 3).2.2.2.2.2.2.2
      (storeOfLen 2)⟩

/-- C7: `withStore` releases the lock on every execution path — the
callback returning `true`, returning `false`, or throwing; a thrown
callback error propagates to the caller (after release); a
pre-existing lock (acquisition timeout) propagates as an error without
touching the store file; and failures of the release steps themselves
(`close`/`unlink`) are swallowed: they never change the call's
result. -/
theorem claim_C7_lock_release (hashId : String → String)
    (mutate : Store → Except ε (Store × Bool)) (cf uf : Bool)
    (root path : String) (now : Nat) (fs : FsState) :
    (fs.lockPresent = true →
      (withStore hashId mutate cf uf root path now fs).result = .error .lockTimeout ∧
        (withStore hashId mutate cf uf root path now fs).fs.storeFile = fs.storeFile) ∧
    (fs.lockPresent = false → uf = false →
      (withStore hashId mutate cf uf root path now fs).fs.lockPresent = false) ∧
    (∀ e : ε, fs.lockPresent = false →
      mutate (loadStore hashId fs.storeFile root path now) = .error e →
      (withStore hashId mutate cf uf root path now fs).result = .error (.mutateError e) ∧
        (withStore hashId mutate cf uf root path now fs).fs.storeFile = fs.storeFile) ∧
    ((withStore hashId mutate cf uf root path now fs).result =
      (withStore hashId mutate false false root path now fs).result) := by
  refine ⟨?_, ?_, ?_, ?_⟩
  · intro h
    rw [withStore_locked hashId mutate cf uf root path now fs h]
    exact ⟨rfl, rfl⟩
  · intro h huf
    subst huf
    cases hm : mutate (loadStore hashId fs.storeFile root path now) with
    | error e =>
      rw [withStore_throw hashId mutate cf false root path now fs e h hm]
    | ok p =>
      obtain ⟨s1, b⟩ := p
      cases b
      · rw [withStore_read hashId mutate cf false root path now fs s1 h hm]
      · rw [withStore_write hashId mutate cf false root path now fs s1 h hm]
  · intro e h hm
    rw [withStore_throw hashId mutate cf uf root path now fs e h hm]
    exact ⟨rfl, rfl⟩
  · by_cases h : fs.lockPresent = true
    · rw [withStore_locked hashId mutate cf uf root path now fs h,
        withStore_locked hashId mutate false false root path now fs h]
    · rw [Bool.not_eq_true] at h
      cases hm : mutate (loadStore hashId fs.storeFile root path now) with
      | error e =>
        rw [withStore_throw hashId mutate cf uf root path now fs e h hm,
          withStore_throw hashId mutate false false root path now fs e h hm]
      | ok p =>
        obtain ⟨s1, b⟩ := p
        cases b
        · rw [withStore_read hashId mutate cf uf root path now fs s1 h hm,
            withStore_read hashId mutate false false root path now fs s1 h hm]
        · rw [withStore_write hashId mutate cf uf root path now fs s1 h hm,
            withStore_write hashId mutate false false root path now fs s1 h hm]

theorem claim_C7_witness :
    (({ lockPresent := true } : FsState).lockPresent = true ∧
      (withStore (ε := Unit) (fun s => s) (fun _ => .error ()) true true
        "/r" "/p" 0 { lockPresent := true }).result = .error .lockTimeout) ∧
    (({} : FsState).lockPresent = false ∧
      (withStore (ε := Unit) (fun s => s) (fun _ => .error ()) true false
        "/r" "/p" 0 {}).fs.lockPresent = false) ∧
    ((withStore (ε := Unit) (fun s => s) (fun _ => .error ()) true true
        "/r" "/p" 0 {}).result = .error (.mutateError ())) :=
  ⟨⟨rfl,
      ((claim_C7_lock_release (fun s => s) (fun _ => .error ()) true true
        "/r" "/p" 0 { lockPresent := true }).1 rfl).1⟩,
    ⟨rfl,
      (claim_C7_lock_release (fun s => s) (fun _ => .error ()) true false
        "/r" "/p" 0 {}).2.1 rfl rfl⟩,
    ((claim_C7_lock_release (fun s => s) (fun _ => .error ()) true true
      "/r" "/p" 0 {}).2.2.1 () rfl rfl).1⟩

/-- C10: a `withStore` call whose callback returns `false` never
creates or modifies the store file: an absent file stays absent, an
existing file's content is untouched, and — when the lock unlink
succeeds — the only net filesystem effect of the call is directory
creation (the lock file having been created and deleted again). -/
theorem claim_C10_read_frame (hashId : String → String) (cf uf : Bool)
    (root path : String) (now : Nat) (m : Store → Store × Bool) (fs : FsState)
    (hlock : fs.lockPresent = false)
    (hflag : (m (loadStore hashId fs.storeFile root path now)).2 = false) :
    (withStore (ε := Unit) hashId (fun s => .ok (m s)) cf uf
        root path now fs).fs.storeFile = fs.storeFile ∧
    (fs.storeFile = none →
      (withStore (ε := Unit) hashId (fun s => .ok (m s)) cf uf
        root path now fs).fs.storeFile = none) ∧
    (uf = false →
      (withStore (ε := Unit) hashId (fun s => .ok (m s)) cf uf
        root path now fs).fs = { fs with dirExists := true }) ∧
    (withStore (ε := Unit) hashId (fun s => .ok (m s)) cf uf
        root path now fs).result = .ok (m (loadStore hashId fs.storeFile root path now)).1 := by
  set loaded := loadStore hashId fs.storeFile root path now with hload
  have hpair : m loaded = ((m loaded).1, false) := by
    rw [← hflag]
  have hm : (fun s => (.ok (m s) : Except Unit (Store × Bool))) loaded =
      .ok ((m loaded).1, false) := by
    show Except.ok (m loaded) = _
    conv_lhs => rw [hpair]
  have hr := withStore_read hashId (fun s => .ok (m s)) cf uf root path now fs
    ((m loaded).1) hlock hm
  rw [hr]
  refine ⟨rfl, fun hn => hn, fun huf => ?_, rfl⟩
  subst huf
  simp [hlock]

theorem claim_C10_witness :
    ({} : FsState).lockPresent = false ∧
    ((fun (s : Store) => (s, false)) (loadStore (fun s => s) (({} : FsState).storeFile)
      "/r" "/p" 7)).2 = false ∧
    (withStore (ε := Unit) (fun s => s) (fun s => .ok (s, false)) true false
        "/r" "/p" 7 {}).fs.storeFile = ({} : FsState).storeFile ∧
    (withStore (ε := Unit) (fun s => s) (fun s => .ok (s, false)) true false
        "/r" "/p" 7 {}).fs = { ({} : FsState) with dirExists := true } :=
  ⟨rfl, rfl,
    (claim_C10_read_frame (fun s => s) true false "/r" "/p" 7 (fun s => (s, false)) {}
      rfl rfl).1,
    (claim_C10_read_frame (fun s => s) true false "/r" "/p" 7 (fun s => (s, false)) {}
      rfl rfl).2.2.1 rfl⟩

/-! ## C6 infrastructure: the pin/approve callbacks as `withStore` sees them -/

/-- The `memory_pin` callback restricted to the store/flag pair
`withStore` consumes. -/
def pinPure (itemId : String) (pinned : Bool) (now : Nat) : Store → Store × Bool :=
  fun s => ((memoryPinMutate itemId pinned now s).1, (memoryPinMutate itemId pinned now s).2.1)

/-- The `memory_approve_proposal` callback restricted to the
store/flag pair `withStore` consumes (the archive document it may
touch is fixed). -/
def approvePure (cfg : Config) (pid : String) (action : ApproveAction)
    (edits : Option ProposalEdits) (rand sumRand : String) (now : Nat)
    (root : String) (arch : ArchiveStore) : Store → Store × Bool :=
  fun s => ((approveMutate cfg pid action edits rand sumRand now root s arch).store,
    (approveMutate cfg pid action edits rand sumRand now root s arch).updated)

theorem pin_not_found (itemId : String) (pinned : Bool) (now : Nat) (st : Store)
    (h : st.items.find? (fun x => x.id == itemId) = none) :
    memoryPinMutate itemId pinned now st = (st, false, "Item not found: " ++ itemId) := by
  simp [memoryPinMutate, h]

theorem approve_not_found (cfg : Config) (pid : String) (action : ApproveAction)
    (edits : Option ProposalEdits) (rand sumRand : String) (now : Nat) (root : String)
    (st : Store) (arch : ArchiveStore)
    (h : st.proposals.find? (fun x => x.id == pid) = none) :
    approveMutate cfg pid action edits rand sumRand now root st arch =
      { store := st, archive := arch, updated := false,
        text := "Proposal not found: " ++ pid } := by
  simp [approveMutate, h]

theorem approve_already_decided (cfg : Config) (pid : String) (action : ApproveAction)
    (edits : Option ProposalEdits) (rand sumRand : String) (now : Nat) (root : String)
    (st : Store) (arch : ArchiveStore) (p : Proposal)
    (h : st.proposals.find? (fun x => x.id == pid) = some p)
    (hs : p.status ≠ .pending) :
    approveMutate cfg pid action edits rand sumRand now root st arch =
      { store := st, archive := arch, updated := false,
        text := "Proposal " ++ pid ++ " is already " ++ statusText p.status } := by
  simp [approveMutate, h, hs]

/-- C6: a pin or approve/reject operation whose target id does not
exist — and a decision on a proposal that is no longer pending —
returns an explanatory no-op message with the write flag `false`,
so the surrounding `withStore` call performs no write and the on-disk
revision is not incremented. -/
theorem claim_C6_missing_target (hashId : String → String) (cfg : Config)
    (itemId pid : String) (pinned : Bool) (action : ApproveAction)
    (edits : Option ProposalEdits) (rand sumRand : String)
    (root path : String) (now : Nat) (fs : FsState) (arch : ArchiveStore)
    (hlock : fs.lockPresent = false) :
    ((loadStore hashId fs.storeFile root path now).items.find?
        (fun x => x.id == itemId) = none →
      memoryPinMutate itemId pinned now (loadStore hashId fs.storeFile root path now) =
        (loadStore hashId fs.storeFile root path now, false,
          "Item not found: " ++ itemId) ∧
      (withStore (ε := Unit) hashId (fun s => .ok (pinPure itemId pinned now s))
          false false root path now fs).fs.storeFile = fs.storeFile ∧
      storedRevision hashId
          ((withStore (ε := Unit) hashId (fun s => .ok (pinPure itemId pinned now s))
            false false root path now fs).fs) root path now =
        storedRevision hashId fs root path now) ∧
    ((loadStore hashId fs.storeFile root path now).proposals.find?
        (fun x => x.id == pid) = none →
      approveMutate cfg pid action edits rand sumRand now root
          (loadStore hashId fs.storeFile root path now) arch =
        { store := loadStore hashId fs.storeFile root path now, archive := arch,
          updated := false, text := "Proposal not found: " ++ pid } ∧
      (withStore (ε := Unit) hashId
          (fun s => .ok (approvePure cfg pid action edits rand sumRand now root arch s))
          false false root path now fs).fs.storeFile = fs.storeFile ∧
      storedRevision hashId
          ((withStore (ε := Unit) hashId
            (fun s => .ok (approvePure cfg pid action edits rand sumRand now root arch s))
            false false root path now fs).fs) root path now =
        storedRevision hashId fs root path now) ∧
    (∀ p : Proposal,
      (loadStore hashId fs.storeFile root path now).proposals.find?
        (fun x => x.id == pid) = some p → p.status ≠ .pending →
      approveMutate cfg pid action edits rand sumRand now root
          (loadStore hashId fs.storeFile root path now) arch =
        { store := loadStore hashId fs.storeFile root path now, archive := arch,
          updated := false,
          text := "Proposal " ++ pid ++ " is already " ++ statusText p.status } ∧
      (withStore (ε := Unit) hashId
          (fun s => .ok (approvePure cfg pid action edits rand sumRand now root arch s))
          false false root path now fs).fs.storeFile = fs.storeFile) := by
  refine ⟨?_, ?_, ?_⟩
  · intro h
    have hmut := pin_not_found itemId pinned now _ h
    have hflag : (pinPure itemId pinned now
        (loadStore hashId fs.storeFile root path now)).2 = false := by
      simp [pinPure, hmut]
    have hfs := withStore_pure_read hashId root path now
      (pinPure itemId pinned now) fs hlock hflag
    exact ⟨hmut, by rw [hfs], by rw [hfs]; rfl⟩
  · intro h
    have hmut := approve_not_found cfg pid action edits rand sumRand now root _ arch h
    have hflag : (approvePure cfg pid action edits rand sumRand now root arch
        (loadStore hashId fs.storeFile root path now)).2 = false := by
      simp [approvePure, hmut]
    have hfs := withStore_pure_read hashId root path now
      (approvePure cfg pid action edits rand sumRand now root arch) fs hlock hflag
    exact ⟨hmut, by rw [hfs], by rw [hfs]; rfl⟩
  · intro p h hp
    have hmut := approve_already_decided cfg pid action edits rand sumRand now root
      _ arch p h hp
    have hflag : (approvePure cfg pid action edits rand sumRand now root arch
        (loadStore hashId fs.storeFile root path now)).2 = false := by
      simp [approvePure, hmut]
    have hfs := withStore_pure_read hashId root path now
      (approvePure cfg pid action edits rand sumRand now root arch) fs hlock hflag
    exact ⟨hmut, by rw [hfs]⟩

/-- A store whose only proposal is already approved, used as a witness
input for the terminal-status branch. -/
def propW : Proposal :=
  { id := "prop_1", type := "note", title := "t", content := "c", tags := [],
    status := .approved, createdAt := some 0, updatedAt := some 0 }

def storePropW : Store :=
  { project := projW, items := [], proposals := [propW], revision := 3 }

def fsPropW : FsState := { storeFile := some (.doc (encodeStore storePropW)) }

theorem claim_C6_witness :
    (({} : FsState).lockPresent = false ∧
      (loadStore (fun s => s) (({} : FsState).storeFile) "/r" "/p" 9).items.find?
        (fun x => x.id == "mem_nope") = none ∧
      memoryPinMutate "mem_nope" true 9 (loadStore (fun s => s) (({} : FsState).storeFile)
          "/r" "/p" 9) =
        (loadStore (fun s => s) (({} : FsState).storeFile) "/r" "/p" 9, false,
          "Item not found: " ++ "mem_nope")) ∧
    (fsPropW.lockPresent = false ∧
      (loadStore (fun s => s) fsPropW.storeFile "/r" "/p" 9).proposals.find?
        (fun x => x.id == "prop_1") = some propW ∧
      propW.status ≠ .pending ∧
      approveMutate CONFIG "prop_1" .approve none "r" "sr" 9 "/r"
          (loadStore (fun s => s) fsPropW.storeFile "/r" "/p" 9) arch0 =
        { store := loadStore (fun s => s) fsPropW.storeFile "/r" "/p" 9, archive := arch0,
          updated := false,
          text := "Proposal " ++ "prop_1" ++ " is already " ++ statusText propW.status }) :=
  ⟨⟨rfl, by decide,
      ((claim_C6_missing_target (fun s => s) CONFIG "mem_nope" "x" true .approve none
        "r" "sr" "/r" "/p" 9 {} arch0 rfl).1 (by decide)).1⟩,
    ⟨rfl, by decide, by decide,
      ((claim_C6_missing_target (fun s => s) CONFIG "x" "prop_1" true .approve none
        "r" "sr" "/r" "/p" 9 fsPropW arch0 rfl).2.2 propW (by decide) (by decide)).1⟩⟩

/-- C2: a compaction that must evict exactly `k` records from a store
whose records have pairwise-distinct age keys (and unique ids) evicts
exactly the `k` oldest: the evicted list has length `k`, is sorted
ascending by age key, partitions the active records together with the
survivors, and every evicted record is strictly older than every
survivor.  Nothing in the selection consults `pinned`, so pinned
records are eviction candidates exactly like unpinned ones (the
hypotheses and conclusion are independent of every `pinned` flag). -/
theorem claim_C2_eviction_selection (cfg : Config) (now : Nat) (sumRand projectRoot : String)
    (store : Store) (archive : ArchiveStore) (options : CompactOptions) (k : Nat)
    (h0 : resolvedMaxItems cfg options ≠ 0)
    (h1 : resolvedTarget cfg options < store.items.length)
    (hk : k = store.items.length - resolvedTarget cfg options)
    (hdist : store.items.Pairwise (fun a b => sortKey a ≠ sortKey b))
    (hnodup : (store.items.map (fun it => it.id)).Nodup) :
    (compactStoreInPlace cfg now sumRand projectRoot store archive options).archived = k ∧
    (compactStoreInPlace cfg now sumRand projectRoot store archive options).evicted.length
      = k ∧
    List.Sorted byAge
      (compactStoreInPlace cfg now sumRand projectRoot store archive options).evicted ∧
    ((compactStoreInPlace cfg now sumRand projectRoot store archive options).evicted ++
      (compactStoreInPlace cfg now sumRand projectRoot store archive options).survivors).Perm
      store.items ∧
    (∀ x ∈ (compactStoreInPlace cfg now sumRand projectRoot store archive options).evicted,
      ∀ y ∈ (compactStoreInPlace cfg now sumRand projectRoot store archive options).survivors,
        sortKey x < sortKey y) := by
  subst hk
  set k := store.items.length - resolvedTarget cfg options with hkdef
  have he := compact_evicted_of_overflow cfg now sumRand projectRoot store archive options h0 h1
  have hs := compact_survivors_of_overflow cfg now sumRand projectRoot store archive options h0 h1
  have ha := compact_archived_of_overflow cfg now sumRand projectRoot store archive options h0 h1
  have hkle : k ≤ (agedSort store.items).length := by
    rw [agedSort_length]; omega
  have hsp := survivors_perm_drop store.items k hnodup
  refine ⟨ha, ?_, ?_, ?_, ?_⟩
  · rw [he, List.length_take, agedSort_length]
    omega
  · rw [he]
    exact List.Pairwise.sublist (List.take_sublist k (agedSort store.items))
      (agedSort_sorted store.items)
  · rw [he, hs]
    have h2 : (agedSort store.items).take k ++ (agedSort store.items).drop k =
        agedSort store.items :=
      List.take_append_drop k (agedSort store.items)
    have h3 := hsp.append_left ((agedSort store.items).take k)
    exact h3.trans (by rw [h2]; exact agedSort_perm store.items)
  · intro x hx y hy
    rw [he] at hx
    rw [hs] at hy
    have hy2 : y ∈ (agedSort store.items).drop k := hsp.mem_iff.mp hy
    exact agedSort_take_lt_drop store.items k hdist x hx y hy2

theorem claim_C2_witness :
    (resolvedMaxItems CONFIG { maxItems := some 2 } ≠ 0 ∧
      resolvedTarget CONFIG { maxItems := some 2 } < (storeOfLen 3).items.length ∧
      (2 : Nat) = (storeOfLen 3).items.length - resolvedTarget CONFIG { maxItems := some 2 } ∧
      (storeOfLen 3).items.Pairwise (fun a b => sortKey a ≠ sortKey b) ∧
      ((storeOfLen 3).items.map (fun it => it.id)).Nodup) ∧
    (compactStoreInPlace CONFIG 100 "s" "/r" (storeOfLen 3) arch0
      { maxItems := some 2 }).archived = 2 :=
  ⟨⟨by decide, by decide, by decide, by decide, by decide⟩,
    (claim_C2_eviction_selection CONFIG 100 "s" "/r" (storeOfLen 3) arch0
      { maxItems := some 2 } 2 (by decide) (by decide) (by decide)
      (by decide) (by decide)).1⟩

/-! ## C3: the auto-compaction scenario -/

theorem autoCompact_noop_of_le (cfg : Config) (now : Nat) (sumRand root : String)
    (store : Store) (archive : ArchiveStore)
    (h : store.items.length ≤ cfg.autoCompact.maxItems) :
    autoCompactStore cfg now sumRand root store archive = noopCompact store archive := by
  by_cases he : cfg.autoCompact.enabled <;> simp [autoCompactStore, he, h]

theorem autoCompact_engaged (cfg : Config) (now : Nat) (sumRand root : String)
    (store : Store) (archive : ArchiveStore)
    (he : cfg.autoCompact.enabled = true)
    (hm : cfg.autoCompact.maxItems ≠ 0)
    (hl : cfg.autoCompact.maxItems < store.items.length) :
    autoCompactStore cfg now sumRand root store archive =
      compactStoreInPlace cfg now sumRand root store archive (autoOptions cfg) := by
  simp [autoCompactStore, he, hm, Nat.not_le.mpr hl]

theorem string_data_append (s t : String) : (s ++ t).data = s.data ++ t.data := by
  cases s
  cases t
  rfl

/-- A generated `mem_*` id never collides with the all-'a' fixture
ids. -/
theorem memId_not_in_storeOfLen (n : Nat) (r : String) :
    newId "mem" r ∉ (storeOfLen n).items.map (fun it => it.id) := by
  intro h
  simp only [storeOfLen, List.map_map, List.mem_map, List.mem_range] at h
  obtain ⟨i, _, hid⟩ := h
  have hd := congrArg String.data hid
  simp only [Function.comp, itemW, newId, string_data_append] at hd
  rcases i with _ | i
  · simp at hd
  · rw [List.replicate_succ] at hd
    have h2 := congrArg (fun l => l.head?) hd
    simp at h2

def saveInW : SaveInput := { title := "t", content := "c" }

theorem memorySaveMutate_archived (cfg : Config) (input : SaveInput)
    (rand sumRand : String) (now : Nat) (root : String) (st : Store)
    (arch : ArchiveStore) :
    (memorySaveMutate cfg input rand sumRand now root st arch).archived =
      (autoCompactStore cfg now sumRand root
        { st with items := st.items ++ [mkSavedItem input rand now] } arch).archived := by
  simp [memorySaveMutate]

theorem memorySaveMutate_store (cfg : Config) (input : SaveInput)
    (rand sumRand : String) (now : Nat) (root : String) (st : Store)
    (arch : ArchiveStore) :
    (memorySaveMutate cfg input rand sumRand now root st arch).store =
      (autoCompactStore cfg now sumRand root
        { st with items := st.items ++ [mkSavedItem input rand now] } arch).store := by
  simp [memorySaveMutate]

/-- C3 refuted as stated: a record-creating save into a store holding
exactly 401 active items (distinct increasing age keys) makes the
store hold 402 records at compaction time, so the save-driven
auto-compaction archives 402 − 399 = 3 items — not the 2 the claim
asserts. -/
theorem claim_C3_counterexample :
    (memorySaveMutate CONFIG saveInW "r0" "s0" 1000 "/r" (storeOfLen 401) arch0).archived
      = 3 := by
  rw [memorySaveMutate_archived]
  have hlen : ({ storeOfLen 401 with
      items := (storeOfLen 401).items ++ [mkSavedItem saveInW "r0" 1000] } : Store).items.length
      = 402 := by
    simp [List.length_append, storeOfLen_length]
  rw [autoCompact_engaged _ _ _ _ _ _ rfl (by decide) (by rw [hlen]; decide)]
  rw [compact_archived_of_overflow _ _ _ _ _ _ _ (by decide) (by rw [hlen]; decide)]
  rw [hlen]
  decide

/-- C3 (amended): with the shipped configuration (auto-compaction
enabled, `maxItems = 400`, summary record enabled), a record-creating
save into a store holding exactly 400 active items — so that the store
holds 401 at compaction time, the spec's own scenario count — triggers
auto-compaction that archives exactly 2 items and leaves exactly 400
active items (399 survivors plus the injected summary record); and
auto-compaction does not engage at all while the active count is at or
below `maxItems`. -/
theorem claim_C3_amended_auto_compaction (input : SaveInput) (rand sumRand : String)
    (now : Nat) (root : String) (st : Store) (arch : ArchiveStore)
    (hlen : st.items.length = 400)
    (hnodup : (st.items.map (fun it => it.id)).Nodup)
    (hfresh : (mkSavedItem input rand now).id ∉ st.items.map (fun it => it.id)) :
    (memorySaveMutate CONFIG input rand sumRand now root st arch).archived = 2 ∧
    (memorySaveMutate CONFIG input rand sumRand now root st arch).store.items.length = 400 ∧
    (∀ (st' : Store) (arch' : ArchiveStore),
      st'.items.length ≤ CONFIG.autoCompact.maxItems →
      autoCompactStore CONFIG now sumRand root st' arch' = noopCompact st' arch') := by
  set st1 : Store := { st with items := st.items ++ [mkSavedItem input rand now] } with hst1
  have hlen1 : st1.items.length = 401 := by
    rw [hst1]
    simp [List.length_append, hlen]
  have hnodup1 : (st1.items.map (fun it => it.id)).Nodup := by
    rw [hst1]
    simp only [List.map_append]
    refine List.nodup_append.mpr ⟨hnodup, List.nodup_singleton _, ?_⟩
    intro a ha hb
    simp only [List.map_cons, List.map_nil, List.mem_singleton] at hb
    subst hb
    exact hfresh ha
  have hover : resolvedTarget CONFIG (autoOptions CONFIG) < st1.items.length := by
    rw [hlen1]; decide
  have hauto := autoCompact_engaged CONFIG now sumRand root st1 arch rfl (by decide)
    (by rw [hlen1]; decide)
  refine ⟨?_, ?_, fun st' arch' h => autoCompact_noop_of_le CONFIG now sumRand root st' arch' h⟩
  · rw [memorySaveMutate_archived, hauto,
      compact_archived_of_overflow _ _ _ _ _ _ _ (by decide) hover, hlen1]
    decide
  · rw [memorySaveMutate_store, hauto,
      compact_items_with_summary _ _ _ _ _ _ _ (by decide) hover (by decide),
      List.length_append,
      compact_survivors_length _ _ _ _ _ _ _ (by decide) hover hnodup1,
      List.length_singleton]
    decide

theorem claim_C3_witness :
    ((storeOfLen 400).items.length = 400 ∧
      ((storeOfLen 400).items.map (fun it => it.id)).Nodup ∧
      (mkSavedItem saveInW "r0" 1000).id ∉ (storeOfLen 400).items.map (fun it => it.id)) ∧
    (memorySaveMutate CONFIG saveInW "r0" "s0" 1000 "/r" (storeOfLen 400) arch0).archived
        = 2 ∧
    (memorySaveMutate CONFIG saveInW "r0" "s0" 1000 "/r"
        (storeOfLen 400) arch0).store.items.length = 400 :=
  ⟨⟨storeOfLen_length 400, storeOfLen_ids_nodup 400, memId_not_in_storeOfLen 400 "r0"⟩,
    (claim_C3_amended_auto_compaction saveInW "r0" "s0" 1000 "/r" (storeOfLen 400) arch0
      (storeOfLen_length 400) (storeOfLen_ids_nodup 400)
      (memId_not_in_storeOfLen 400 "r0")).1,
    (claim_C3_amended_auto_compaction saveInW "r0" "s0" 1000 "/r" (storeOfLen 400) arch0
      (storeOfLen_length 400) (storeOfLen_ids_nodup 400)
      (memId_not_in_storeOfLen 400 "r0")).2.1⟩

/-! ## C4: idempotence of explicit compaction -/

/-- C4 refuted as stated: with the summary record enabled (the shipped
default title is non-blank), explicit compaction is not idempotent.
After a first call archives 2 of 3 records and re-fills the freed slot
with a summary record, an immediately repeated call with the same
threshold and options archives 1 further record, not 0. -/
theorem claim_C4_counterexample :
    (compactStoreInPlace CONFIG 100 "s2" "/r"
        (compactStoreInPlace CONFIG 50 "s1" "/r" (storeOfLen 3) arch0
          { maxItems := some 2 }).store
        (compactStoreInPlace CONFIG 50 "s1" "/r" (storeOfLen 3) arch0
          { maxItems := some 2 }).archive
        { maxItems := some 2 }).archived = 1 := by
  decide

/-- C4 (amended): explicit compaction archives nothing and leaves
store and archive untouched whenever the active count is at or below
the computed target; consequently, whenever the first call leaves the
count at or below target — in particular whenever the summary record
is disabled (blank `summaryTitle`), so that compaction does not
re-fill the freed slot — an immediately repeated call with the same
threshold and options archives 0 and changes nothing. -/
theorem claim_C4_compaction_idempotence (cfg : Config) (now1 now2 : Nat)
    (sumRand1 sumRand2 root : String) (store : Store) (arch : ArchiveStore)
    (options : CompactOptions)
    (hnodup : (store.items.map (fun it => it.id)).Nodup)
    (hs : resolvedIncludeSummary cfg options = false) :
    (∀ (st' : Store) (arch' : ArchiveStore),
      st'.items.length ≤ resolvedTarget cfg options →
      compactStoreInPlace cfg now1 sumRand1 root st' arch' options =
        noopCompact st' arch') ∧
    (compactStoreInPlace cfg now2 sumRand2 root
        (compactStoreInPlace cfg now1 sumRand1 root store arch options).store
        (compactStoreInPlace cfg now1 sumRand1 root store arch options).archive
        options).archived = 0 ∧
    (compactStoreInPlace cfg now2 sumRand2 root
        (compactStoreInPlace cfg now1 sumRand1 root store arch options).store
        (compactStoreInPlace cfg now1 sumRand1 root store arch options).archive
        options).store =
      (compactStoreInPlace cfg now1 sumRand1 root store arch options).store ∧
    (compactStoreInPlace cfg now2 sumRand2 root
        (compactStoreInPlace cfg now1 sumRand1 root store arch options).store
        (compactStoreInPlace cfg now1 sumRand1 root store arch options).archive
        options).archive =
      (compactStoreInPlace cfg now1 sumRand1 root store arch options).archive := by
  refine ⟨fun st' arch' h =>
    compact_noop_of_le cfg now1 sumRand1 root st' arch' options (Or.inr h), ?_⟩
  by_cases h0 : resolvedMaxItems cfg options = 0
  · have h1 := compact_noop_of_le cfg now1 sumRand1 root store arch options (Or.inl h0)
    rw [h1]
    simp only [noopCompact]
    rw [compact_noop_of_le cfg now2 sumRand2 root store arch options (Or.inl h0)]
    exact ⟨rfl, rfl, rfl⟩
  · by_cases hle : store.items.length ≤ resolvedTarget cfg options
    · have h1 := compact_noop_of_le cfg now1 sumRand1 root store arch options (Or.inr hle)
      rw [h1]
      simp only [noopCompact]
      rw [compact_noop_of_le cfg now2 sumRand2 root store arch options (Or.inr hle)]
      exact ⟨rfl, rfl, rfl⟩
    · have hover : resolvedTarget cfg options < store.items.length := Nat.lt_of_not_le hle
      have hlen2 : (compactStoreInPlace cfg now1 sumRand1 root store arch
          options).store.items.length = resolvedTarget cfg options := by
        rw [compact_items_no_summary cfg now1 sumRand1 root store arch options h0 hover hs,
          compact_survivors_length cfg now1 sumRand1 root store arch options h0 hover hnodup]
      rw [compact_noop_of_le cfg now2 sumRand2 root _ _ options
        (Or.inr (Nat.le_of_eq hlen2))]
      exact ⟨rfl, rfl, rfl⟩

theorem claim_C4_witness :
    (((storeOfLen 3).items.map (fun it => it.id)).Nodup ∧
      resolvedIncludeSummary CONFIG { maxItems := some 2, summaryTitle := some "" }
        = false) ∧
    (compactStoreInPlace CONFIG 100 "s2" "/r"
        (compactStoreInPlace CONFIG 50 "s1" "/r" (storeOfLen 3) arch0
          { maxItems := some 2, summaryTitle := some "" }).store
        (compactStoreInPlace CONFIG 50 "s1" "/r" (storeOfLen 3) arch0
          { maxItems := some 2, summaryTitle := some "" }).archive
        { maxItems := some 2, summaryTitle := some "" }).archived = 0 :=
  ⟨⟨by decide, by decide⟩,
    (claim_C4_compaction_idempotence CONFIG 50 100 "s1" "s2" "/r" (storeOfLen 3) arch0
      { maxItems := some 2, summaryTitle := some "" } (by decide) (by decide)).2.1⟩

/-! ## C8: approval/rejection of proposals -/

theorem newId_mem_ne_prop (a b : String) : newId "mem" a ≠ newId "prop" b := by
  intro h
  have hd := congrArg String.data h
  simp only [newId, string_data_append] at hd
  simp at hd

theorem applyEdits_id (edits : Option ProposalEdits) (p : Proposal) :
    (applyEdits edits p).id = p.id := by
  rcases edits with _ | e
  · rfl
  · rcases e with ⟨t, ti, c, tg, pi⟩
    rcases t with _ | t <;> rcases ti with _ | ti <;> rcases c with _ | c <;>
      rcases tg with _ | tg <;> rcases pi with _ | pi <;>
      simp only [applyEdits] <;> first | rfl | (split <;> rfl)

theorem updateFirst_length (q : α → Bool) (f : α → α) (l : List α) :
    (updateFirst q f l).length = l.length := by
  induction l with
  | nil => rfl
  | cons x xs ih => by_cases h : q x <;> simp [updateFirst, h, ih]

theorem find?_updateFirst_mem (q : α → Bool) (f : α → α) (l : List α) (a : α)
    (h : l.find? q = some a) : f a ∈ updateFirst q f l := by
  induction l with
  | nil => simp at h
  | cons x xs ih =>
    by_cases hx : q x
    · rw [List.find?_cons_of_pos _ hx] at h
      injection h with h
      subst h
      simp [updateFirst, hx]
    · rw [List.find?_cons_of_neg _ hx] at h
      simp only [updateFirst, hx, if_neg, Bool.false_eq_true, not_false_eq_true, if_false]
      exact List.mem_cons_of_mem x (ih h)

theorem approve_pending_approve_spec (cfg : Config) (pid : String)
    (edits : Option ProposalEdits) (rand sumRand : String) (now : Nat) (root : String)
    (st : Store) (arch : ArchiveStore) (p : Proposal)
    (hfind : st.proposals.find? (fun x => x.id == pid) = some p)
    (hp : p.status = .pending) :
    approveMutate cfg pid .approve edits rand sumRand now root st arch =
      { store := (autoCompactStore cfg now sumRand root
          { st with
              items := st.items ++
                [mkApprovedItem (decideProposal .approve now (applyEdits edits p)) rand now]
              proposals := updateFirst (fun x => x.id == pid)
                (fun _ => decideProposal .approve now (applyEdits edits p)) st.proposals }
          arch).store
        archive := (autoCompactStore cfg now sumRand root
          { st with
              items := st.items ++
                [mkApprovedItem (decideProposal .approve now (applyEdits edits p)) rand now]
              proposals := updateFirst (fun x => x.id == pid)
                (fun _ => decideProposal .approve now (applyEdits edits p)) st.proposals }
          arch).archive
        updated := true
        text := "Approved " ++ pid ++ " -> saved as item " ++
          (mkApprovedItem (decideProposal .approve now (applyEdits edits p)) rand now).id } := by
  simp [approveMutate, hfind, hp]

theorem approve_pending_reject_spec (cfg : Config) (pid : String)
    (edits : Option ProposalEdits) (rand sumRand : String) (now : Nat) (root : String)
    (st : Store) (arch : ArchiveStore) (p : Proposal)
    (hfind : st.proposals.find? (fun x => x.id == pid) = some p)
    (hp : p.status = .pending) :
    approveMutate cfg pid .reject edits rand sumRand now root st arch =
      { store := { st with
          proposals := updateFirst (fun x => x.id == pid)
            (fun _ => decideProposal .reject now (applyEdits edits p)) st.proposals }
        archive := arch
        updated := true
        text := "Rejected " ++ pid } := by
  simp [approveMutate, hfind, hp]

/-- C8: deciding a pending proposal is terminal and audit-preserving.
Approving sets the proposal's status to `approved`, keeps it in the
proposals array (same length, and the decided entry is present), and
appends to `items` one new, independent record whose id is the freshly
generated `mem`-prefixed id — distinct from the proposal's
`prop`-prefixed id — carrying a `proposalId` back-reference; rejecting
sets status to `rejected` and appends nothing; and once a proposal is
no longer pending, both approve and reject leave the store entirely
unchanged and report the decided status.  (The store is assumed small
enough that the opportunistic auto-compaction after approval does not
engage, as is the case below the 400-item default threshold.) -/
theorem claim_C8_proposal_terminal (cfg : Config) (pid : String)
    (edits : Option ProposalEdits) (rand sumRand : String) (now : Nat) (root : String)
    (st : Store) (arch : ArchiveStore) (p : Proposal)
    (hfind : st.proposals.find? (fun x => x.id == pid) = some p)
    (hsize : st.items.length + 1 ≤ cfg.autoCompact.maxItems) :
    (p.status = .pending →
      ((approveMutate cfg pid .approve edits rand sumRand now root st arch).store.items =
          st.items ++
            [mkApprovedItem (decideProposal .approve now (applyEdits edits p)) rand now] ∧
        (approveMutate cfg pid .approve edits rand sumRand now root st arch).store.proposals =
          updateFirst (fun x => x.id == pid)
            (fun _ => decideProposal .approve now (applyEdits edits p)) st.proposals ∧
        (approveMutate cfg pid .approve edits rand sumRand now root
            st arch).store.proposals.length = st.proposals.length ∧
        decideProposal .approve now (applyEdits edits p) ∈
          (approveMutate cfg pid .approve edits rand sumRand now root st arch).store.proposals ∧
        (decideProposal .approve now (applyEdits edits p)).status = .approved ∧
        (decideProposal .approve now (applyEdits edits p)).id = p.id ∧
        (mkApprovedItem (decideProposal .approve now (applyEdits edits p)) rand now).id =
          newId "mem" rand ∧
        (mkApprovedItem (decideProposal .approve now (applyEdits edits p)) rand now).proposalId
          = some p.id ∧
        (∀ rp : String, p.id = newId "prop" rp →
          (mkApprovedItem (decideProposal .approve now (applyEdits edits p)) rand now).id
            ≠ p.id) ∧
        (approveMutate cfg pid .approve edits rand sumRand now root st arch).updated = true) ∧
      ((approveMutate cfg pid .reject edits rand sumRand now root st arch).store.items =
          st.items ∧
        (approveMutate cfg pid .reject edits rand sumRand now root st arch).store.proposals =
          updateFirst (fun x => x.id == pid)
            (fun _ => decideProposal .reject now (applyEdits edits p)) st.proposals ∧
        (decideProposal .reject now (applyEdits edits p)).status = .rejected ∧
        (approveMutate cfg pid .reject edits rand sumRand now root st arch).archive = arch ∧
        (approveMutate cfg pid .reject edits rand sumRand now root st arch).updated = true)) ∧
    (p.status ≠ .pending → ∀ action : ApproveAction,
      approveMutate cfg pid action edits rand sumRand now root st arch =
        { store := st, archive := arch, updated := false,
          text := "Proposal " ++ pid ++ " is already " ++ statusText p.status }) := by
  constructor
  · intro hp
    have hlen1 : ({ st with
        items := st.items ++
          [mkApprovedItem (decideProposal .approve now (applyEdits edits p)) rand now]
        proposals := updateFirst (fun x => x.id == pid)
          (fun _ => decideProposal .approve now (applyEdits edits p))
          st.proposals } : Store).items.length ≤ cfg.autoCompact.maxItems := by
      simpa [List.length_append] using hsize
    have hnoop := autoCompact_noop_of_le cfg now sumRand root _ arch hlen1
    have happ := approve_pending_approve_spec cfg pid edits rand sumRand now root
      st arch p hfind hp
    rw [hnoop] at happ
    constructor
    · rw [happ]
      refine ⟨rfl, rfl, updateFirst_length _ _ _, ?_, rfl, applyEdits_id edits p, rfl,
        ?_, ?_, rfl⟩
      · exact find?_updateFirst_mem _ _ _ p hfind
      · show some (decideProposal .approve now (applyEdits edits p)).id = some p.id
        rw [show (decideProposal .approve now (applyEdits edits p)).id =
          (applyEdits edits p).id from rfl, applyEdits_id edits p]
      · intro rp hrp
        show newId "mem" rand ≠ p.id
        rw [hrp]
        exact newId_mem_ne_prop rand rp
    · rw [approve_pending_reject_spec cfg pid edits rand sumRand now root st arch p
        hfind hp]
      exact ⟨rfl, rfl, rfl, rfl, rfl⟩
  · intro hp action
    exact approve_already_decided cfg pid action edits rand sumRand now root st arch p
      hfind hp

/-- A pending proposal fixture. -/
def propPendW : Proposal :=
  { id := "prop_w", type := "note", title := "t", content := "c", tags := [],
    status := .pending, createdAt := some 0, updatedAt := some 0 }

def storePendW : Store :=
  { project := projW, items := [], proposals := [propPendW], revision := 0 }

theorem claim_C8_witness :
    (storePendW.proposals.find? (fun x => x.id == "prop_w") = some propPendW ∧
      storePendW.items.length + 1 ≤ CONFIG.autoCompact.maxItems ∧
      propPendW.status = .pending) ∧
    (approveMutate CONFIG "prop_w" .approve none "r" "s" 5 "/r"
        storePendW arch0).store.items =
      storePendW.items ++
        [mkApprovedItem (decideProposal .approve 5 (applyEdits none propPendW)) "r" 5] ∧
    (approveMutate CONFIG "prop_w" .reject none "r" "s" 5 "/r"
        storePendW arch0).store.items = storePendW.items :=
  ⟨⟨by decide, by decide, rfl⟩,
    ((claim_C8_proposal_terminal CONFIG "prop_w" none "r" "s" 5 "/r" storePendW arch0
      propPendW (by decide) (by decide)).1 rfl).1.1,
    ((claim_C8_proposal_terminal CONFIG "prop_w" none "r" "s" 5 "/r" storePendW arch0
      propPendW (by decide) (by decide)).1 rfl).2.1⟩

/-! ## C9: type coercion and tag normalization -/

theorem dedupFirstAux_sub (seen : List String) (l : List String) :
    ∀ x ∈ dedupFirstAux seen l, x ∈ l := by
  induction l generalizing seen with
  | nil => simp [dedupFirstAux]
  | cons a as ih =>
    intro x hx
    by_cases h : seen.contains a
    · simp only [dedupFirstAux, h, if_true] at hx
      exact List.mem_cons_of_mem a (ih seen x hx)
    · simp only [dedupFirstAux, h, Bool.false_eq_true, if_false, List.mem_cons] at hx
      rcases hx with hx | hx
      · exact hx ▸ List.mem_cons_self a as
      · exact List.mem_cons_of_mem a (ih (a :: seen) x hx)

theorem dedupFirstAux_spec (seen : List String) (l : List String) :
    (dedupFirstAux seen l).Nodup ∧
      ∀ x ∈ dedupFirstAux seen l, seen.contains x = false := by
  induction l generalizing seen with
  | nil => exact ⟨List.nodup_nil, by simp [dedupFirstAux]⟩
  | cons a as ih =>
    by_cases h : seen.contains a
    · have hred : dedupFirstAux seen (a :: as) = dedupFirstAux seen as := by
        simp only [dedupFirstAux, h, if_true]
      rw [hred]
      exact ih seen
    · have ih2 := ih (a :: seen)
      constructor
      · simp only [dedupFirstAux, h, Bool.false_eq_true, if_false]
        rw [List.nodup_cons]
        refine ⟨fun hmem => ?_, ih2.1⟩
        have hcon := ih2.2 a hmem
        simp [List.contains_cons] at hcon
      · intro x hx
        simp only [dedupFirstAux, h, Bool.false_eq_true, if_false, List.mem_cons] at hx
        rcases hx with hx | hx
        · subst hx
          exact Bool.not_eq_true _ ▸ h
        · have hcon := ih2.2 x hx
          simp only [List.contains_cons, Bool.or_eq_false_iff] at hcon
          exact hcon.2

theorem dedupFirst_nodup (l : List String) : (dedupFirst l).Nodup :=
  (dedupFirstAux_spec [] l).1

theorem dedupFirst_sub (l : List String) : ∀ x ∈ dedupFirst l, x ∈ l :=
  dedupFirstAux_sub [] l

/-- The guarantees `normalizeTags` provides at every site that stores
tags: no duplicates, at most `LIMITS.maxTags` entries, and every entry
is the trim-then-lowercase image of an input entry and is non-empty
(hence lowercased and trimmed). -/
theorem normalizeTags_spec (tags : Option (List String)) :
    (normalizeTags tags).Nodup ∧
    (normalizeTags tags).length ≤ LIMITS.maxTags ∧
    ∀ e ∈ normalizeTags tags, e ≠ "" ∧ ∃ t ∈ tags.getD [], e = jsToLower (jsTrim t) := by
  refine ⟨?_, ?_, ?_⟩
  · exact List.Nodup.sublist (List.take_sublist _ _) (dedupFirst_nodup _)
  · simp [normalizeTags, List.length_take_le]
  · intro e he
    simp only [normalizeTags] at he
    have he2 := List.mem_of_mem_take he
    have he3 := dedupFirst_sub _ e he2
    rw [List.mem_filter] at he3
    obtain ⟨he4, he5⟩ := he3
    constructor
    · intro hcon
      subst hcon
      simp at he5
    · rw [List.mem_map] at he4
      obtain ⟨t, ht, hte⟩ := he4
      exact ⟨t, ht, hte.symm⟩

theorem validateType_mem (t : Option String) : validateType t ∈ ALLOWED_TYPES := by
  have key : ∀ s : String,
      (if ALLOWED_TYPES.contains (jsTrim (jsToLower s)) = true
        then jsTrim (jsToLower s) else "note") ∈ ALLOWED_TYPES := by
    intro s
    by_cases h : ALLOWED_TYPES.contains (jsTrim (jsToLower s))
    · rw [if_pos h]
      exact List.mem_of_elem_eq_true h
    · rw [if_neg h]
      decide
  rcases t with _ | u
  · exact key "note"
  · exact key (if u == "" then "note" else u)

/-- C9 refuted as stated: the compaction summary record does not
normalize its tags.  A manual compaction with `summaryTags = ["X"]`
stores the summary record with tags `["X"]` verbatim — not lowercased
(and in general not trimmed or deduplicated), whereas `normalizeTags`
would store `["x"]`. -/
theorem claim_C9_counterexample :
    ((compactStoreInPlace CONFIG 100 "s" "/r" (storeOfLen 1) arch0
        { maxItems := some 1, summaryTags := some ["X"] }).store.items.map
      (fun it => it.tags)) = [["X"]] ∧
    jsToLower "X" ≠ "X" ∧
    normalizeTags (some ["X"]) = ["x"] := by
  decide

/-- C9 (amended): at every record-construction site that goes through
the domain validators — `memory_save`, `memory_propose`, and the
approval edits — the stored `type` is a member of the closed
enumeration with any other input coerced to "note" (e.g. "bogus" is
stored as "note"), and the stored tags are lowercased, trimmed,
non-empty, deduplicated and truncated to `LIMITS.maxTags`.  The
compaction summary record stores the literal type "note", but its
tags are only filtered down to entries with a non-blank trim and are
otherwise kept verbatim (not normalized). -/
theorem claim_C9_amended_validation (t : Option String) (tags : Option (List String))
    (input : SaveInput) (rand : String) (now : Nat) (raw : ProposeItemInput)
    (reason : Option String) (e : ProposalEdits) (p : Proposal) (ts : List String)
    (t' : String) (cfg : Config) (options : CompactOptions)
    (itemsToArchive : List MemoryItem) (sumRand projectRoot : String) :
    validateType t ∈ ALLOWED_TYPES ∧
    validateType (some "bogus") = "note" ∧
    (normalizeTags tags).Nodup ∧
    (normalizeTags tags).length ≤ LIMITS.maxTags ∧
    (∀ x ∈ normalizeTags tags, x ≠ "" ∧ ∃ t0 ∈ tags.getD [], x = jsToLower (jsTrim t0)) ∧
    (mkSavedItem input rand now).type = validateType input.type ∧
    (mkSavedItem input rand now).tags = normalizeTags input.tags ∧
    (mkProposal reason now raw rand).type = validateType raw.type ∧
    (mkProposal reason now raw rand).tags = normalizeTags raw.tags ∧
    (e.tags = some ts → (applyEdits (some e) p).tags = normalizeTags (some ts)) ∧
    (e.type = some t' → t' ≠ "" → (applyEdits (some e) p).type = validateType (some t')) ∧
    (mkSummaryItem cfg now sumRand projectRoot options itemsToArchive).type = "note" ∧
    (mkSummaryItem cfg now sumRand projectRoot options itemsToArchive).tags =
      (options.summaryTags.getD
        (if cfg.autoCompact.summaryTag == "" then []
          else [cfg.autoCompact.summaryTag])).filter (fun x => !(jsTrim x == "")) := by
  have hn := normalizeTags_spec tags
  refine ⟨validateType_mem t, by decide, hn.1, hn.2.1, hn.2.2, rfl, rfl, rfl, rfl,
    ?_, ?_, rfl, rfl⟩
  · intro hts
    rcases e with ⟨et, eti, ec, etg, epi⟩
    simp only at hts
    subst hts
    rcases et with _ | et <;> rcases eti with _ | eti <;> rcases ec with _ | ec <;>
      rcases epi with _ | epi <;>
      simp only [applyEdits]
  · intro ht' hne
    rcases e with ⟨et, eti, ec, etg, epi⟩
    simp only at ht'
    subst ht'
    have hif : (t' == "") = false := by
      simp [hne]
    rcases eti with _ | eti <;> rcases ec with _ | ec <;>
      rcases etg with _ | etg <;> rcases epi with _ | epi <;>
      simp only [applyEdits, hif, Bool.false_eq_true, if_false]

theorem claim_C9_witness :
    (({ tags := some ["  A ", "a", ""] } : ProposalEdits).tags = some ["  A ", "a", ""] ∧
      ({ type := some "BOGUS" } : ProposalEdits).type = some "BOGUS" ∧
      ("BOGUS" : String) ≠ "") ∧
    (applyEdits (some { tags := some ["  A ", "a", ""] }) propPendW).tags =
      normalizeTags (some ["  A ", "a", ""]) ∧
    (applyEdits (some { type := some "BOGUS" }) propPendW).type =
      validateType (some "BOGUS") ∧
    validateType (some "bogus") = "note" :=
  ⟨⟨rfl, rfl, by decide⟩,
    (claim_C9_amended_validation none none saveInW "r" 5 { title := "t", content := "c" }
      none { tags := some ["  A ", "a", ""] } propPendW ["  A ", "a", ""] "x" CONFIG {}
      [] "s" "/r").2.2.2.2.2.2.2.2.2.1 rfl,
    (claim_C9_amended_validation none none saveInW "r" 5 { title := "t", content := "c" }
      none { type := some "BOGUS" } propPendW [] "BOGUS" CONFIG {}
      [] "s" "/r").2.2.2.2.2.2.2.2.2.2.1 rfl (by decide),
    (claim_C9_amended_validation none none saveInW "r" 5 { title := "t", content := "c" }
      none {} propPendW [] "x" CONFIG {} [] "s" "/r").2.1⟩

end ProjectMemory
